import Mathlib

/-! The bus1 header `c-macro.h`: arithmetic, alignment and structural helpers.

A shallow embedding of the integer helpers of `src/bus1/c-macro.h`.

* An unsigned `w`-bit C value is a natural number below `2 ^ w`; the C operators
  on such values reduce modulo `2 ^ w`.  The header requires `sizeof(int) == 4`,
  so this is the arithmetic of `unsigned int` (`w = 32`) and of the 64-bit
  unsigned types (`w = 64`): operands of those types are not promoted.
* A signed `w`-bit C value is an integer in `[-2 ^ (w-1), 2 ^ (w-1))`; an
  operation whose result leaves that range, and a division by zero, is
  undefined and is modelled by `none`.
* An expression that is rejected by the compiler is modelled by `none` in the
  definitions whose name ends in `_cc`.
-/

namespace CMacro

/-! ## C operators on unsigned `w`-bit values -/

/-- Unsigned `a + b` in a `w`-bit type. -/
def uadd (w a b : Nat) : Nat := (a + b) % 2 ^ w

/-- Unsigned `a - b` in a `w`-bit type (`a`, `b` below `2 ^ w`). -/
def usub (w a b : Nat) : Nat := (a + 2 ^ w - b) % 2 ^ w

/-- Unsigned `~a` in a `w`-bit type: the maximum value of the type minus `a`. -/
def unot (w a : Nat) : Nat := (2 ^ w - 1) - a

/-- Unsigned `a & b`. -/
def uand (a b : Nat) : Nat := a &&& b

/-- Unsigned `a << s` in a `w`-bit type; shifting by `w` or more is undefined. -/
def ushl (w a s : Nat) : Option Nat :=
  if s < w then some ((a * 2 ^ s) % 2 ^ w) else none

/-- The C truth value `!!a` of an unsigned value. -/
def notnot (a : Nat) : Nat := if a ≠ 0 then 1 else 0

/-! ## Compile-time dispatch -/

/-- The macro `C_CC_IF(_cond, _if, _else)`:
`__builtin_choose_expr(!!(_cond), _if, _else)`. -/
def C_CC_IF {α : Type} (cond : Bool) (a b : α) : α :=
  if cond then a else b

/-- The macro `C_CC_MACRO2(_call, _x, _y)` on operand values.  `xConst` and `yConst` are
the results of `C_CC_IS_CONST` (`__builtin_constant_p`) on the two operands.
When both are constant the call is expanded on the operands themselves,
otherwise the operands are first bound to two fresh variables. -/
def C_CC_MACRO2 {α β γ : Type} (call : α → β → γ) (xConst yConst : Bool)
    (x : α) (y : β) : γ :=
  C_CC_IF (xConst && yConst)
    (call x y)
    (let X := x
     let Y := y
     call X Y)

/-- The macro `C_CC_MACRO3(_call, _x, _y, _z)` on operand values, the
three-operand form of `C_CC_MACRO2`. -/
def C_CC_MACRO3 {α β γ δ : Type} (call : α → β → γ → δ) (xConst yConst zConst : Bool)
    (x : α) (y : β) (z : γ) : δ :=
  C_CC_IF (xConst && yConst && zConst)
    (call x y z)
    (let X := x
     let Y := y
     let Z := z
     call X Y Z)

/-! ## `c_align_to` -/

/-- The macro `C_ALIGN_TO(_val, _to)`: `(((_val) + (_to) - 1) & ~((_to) - 1))`
on unsigned `w`-bit operands. -/
def C_ALIGN_TO (w val to_ : Nat) : Nat :=
  uand (usub w (uadd w val to_) 1) (unot w (usub w to_ 1))

/-- The macro `c_align_to(_val, _to)`: `C_CC_MACRO2(C_ALIGN_TO, (_val), (_to))`. -/
def c_align_to (w : Nat) (valConst toConst : Bool) (val to_ : Nat) : Nat :=
  C_CC_MACRO2 (C_ALIGN_TO w) valConst toConst val to_

/-- Compilation of `c_align_to(_val, _to)`; `none` stands for a build failure.
The expansion `C_CC_MACRO2(C_ALIGN_TO, (_val), (_to))` contains no compile-time
assertion on either path, so the expression compiles to its value. -/
def c_align_to_cc (w : Nat) (valConst toConst : Bool) (val to_ : Nat) : Option Nat :=
  C_CC_MACRO2 (fun x y => some (C_ALIGN_TO w x y)) valConst toConst val to_

/-! ## `c_clz` and `c_align_power2` -/

/-- Number of leading 0-bits of `v` among its low `n` bits, scanning down from
bit `n - 1`. -/
def clzAux (v : Nat) : Nat → Nat
  | 0 => 0
  | n + 1 => if v.testBit n then 0 else clzAux v n + 1

/-- The compiler builtins `__builtin_clz`, `__builtin_clzl`, `__builtin_clzll`
on a `w`-bit operand: the number of leading 0-bits starting at the most
significant bit position; the result is undefined for 0. -/
def builtin_clz (w v : Nat) : Option Nat :=
  if v = 0 then none else some (clzAux v w)

/-- The macro `c_clz(_val)`: `_Generic` dispatch to the builtin of the operand type, whose
width is `w`. -/
def c_clz (w val : Nat) : Option Nat := builtin_clz w val

/-- The macro `c_align_power2(_val)`, that is `c_internal_align_power2`, on an
unsigned `w`-bit operand (`sizeof(v) * 8` is `w`). -/
def c_align_power2 (w val : Nat) : Option Nat :=
  let v := val
  if v = 1 then
    some 1
  else
    match c_clz w (usub w v 1) with
    | none => none
    | some z =>
      if z < 1 then
        some 0
      else
        ushl w 1 (w - z)

/-! ## `c_div_round_up` -/

/-- Unsigned `a / b`; division by zero is undefined. -/
def udiv (a b : Nat) : Option Nat := if b = 0 then none else some (a / b)

/-- Unsigned `a % b`; division by zero is undefined. -/
def umod (a b : Nat) : Option Nat := if b = 0 then none else some (a % b)

/-- The macro `C_DIV_ROUND_UP(_x, _y)`: `((_x) / (_y) + !!((_x) % (_y)))` on
unsigned `w`-bit operands. -/
def C_DIV_ROUND_UP (w x y : Nat) : Option Nat :=
  match udiv x y, umod x y with
  | some q, some r => some (uadd w q (notnot r))
  | _, _ => none

/-- The macro `c_div_round_up(_x, _y)`:
`C_CC_MACRO2(C_DIV_ROUND_UP, (_x), (_y))`. -/
def c_div_round_up (w : Nat) (xConst yConst : Bool) (x y : Nat) : Option Nat :=
  C_CC_MACRO2 (C_DIV_ROUND_UP w) xConst yConst x y

/-! ## `c_clamp` -/

/-- The macro `C_CLAMP(_x, _low, _high)`:
`((_x) > (_high) ? (_high) : (_x) < (_low) ? (_low) : (_x))`.  The three operands
have the same integer type, signed or unsigned, so the comparisons are those of
their values. -/
def C_CLAMP (x low high : Int) : Int :=
  if x > high then high else if x < low then low else x

/-- The macro `c_clamp(_x, _low, _high)`:
`C_CC_MACRO3(C_CLAMP, (_x), (_low), (_high))`. -/
def c_clamp (xConst lowConst highConst : Bool) (x low high : Int) : Int :=
  C_CC_MACRO3 C_CLAMP xConst lowConst highConst x low high

/-! ## Signed operands -/

namespace Signed

/-- Whether `x` is a value of the signed `w`-bit type. -/
def fits (w : Nat) (x : Int) : Bool :=
  decide (-(2 : Int) ^ (w - 1) ≤ x ∧ x < (2 : Int) ^ (w - 1))

/-- Signed `a + b`; overflow is undefined. -/
def sadd (w : Nat) (a b : Int) : Option Int :=
  if fits w (a + b) then some (a + b) else none

/-- Signed `a / b`, truncating towards zero; division by zero and an
unrepresentable quotient are undefined. -/
def sdiv (w : Nat) (a b : Int) : Option Int :=
  if b = 0 then none else if fits w (a.tdiv b) then some (a.tdiv b) else none

/-- Signed `a % b`, the remainder of the truncating division; undefined
whenever `a / b` is. -/
def smod (w : Nat) (a b : Int) : Option Int :=
  if b = 0 then none else if fits w (a.tdiv b) then some (a.tmod b) else none

/-- The C truth value `!!a` of a signed value. -/
def notnot (a : Int) : Int := if a ≠ 0 then 1 else 0

/-- The macro `C_DIV_ROUND_UP(_x, _y)`: `((_x) / (_y) + !!((_x) % (_y)))` on
signed `w`-bit operands. -/
def C_DIV_ROUND_UP (w : Nat) (x y : Int) : Option Int :=
  match sdiv w x y, smod w x y with
  | some q, some r => sadd w q (notnot r)
  | _, _ => none

/-- The macro `c_div_round_up(_x, _y)`:
`C_CC_MACRO2(C_DIV_ROUND_UP, (_x), (_y))`. -/
def c_div_round_up (w : Nat) (xConst yConst : Bool) (x y : Int) : Option Int :=
  C_CC_MACRO2 (C_DIV_ROUND_UP w) xConst yConst x y

/-- Signed `a - b`; overflow is undefined. -/
def ssub (w : Nat) (a b : Int) : Option Int :=
  if fits w (a - b) then some (a - b) else none

/-- The two's complement bit pattern of a signed `w`-bit value, as an unsigned
`w`-bit value. -/
def toBits (w : Nat) (x : Int) : Nat := (x % (2 : Int) ^ w).toNat

/-- The signed `w`-bit value with the two's complement bit pattern `n`. -/
def ofBits (w : Nat) (n : Nat) : Int :=
  if n < 2 ^ (w - 1) then (n : Int) else (n : Int) - (2 : Int) ^ w

/-- Signed `~a`: the complement of the two's complement bit pattern. -/
def snot (w : Nat) (a : Int) : Int := ofBits w (unot w (toBits w a))

/-- Signed `a & b`: the conjunction of the two's complement bit patterns. -/
def sand (w : Nat) (a b : Int) : Int := ofBits w (uand (toBits w a) (toBits w b))

/-- The macro `C_ALIGN_TO(_val, _to)`: `(((_val) + (_to) - 1) & ~((_to) - 1))` on
signed `w`-bit operands. -/
def C_ALIGN_TO (w : Nat) (val to_ : Int) : Option Int :=
  match sadd w val to_ with
  | none => none
  | some s =>
    match ssub w s 1, ssub w to_ 1 with
    | some a, some m => some (sand w a (snot w m))
    | _, _ => none

/-- The macro `c_align_to(_val, _to)`: `C_CC_MACRO2(C_ALIGN_TO, (_val), (_to))`. -/
def c_align_to (w : Nat) (valConst toConst : Bool) (val to_ : Int) : Option Int :=
  C_CC_MACRO2 (C_ALIGN_TO w) valConst toConst val to_

end Signed

/-! ## `c_max`, `c_min`, `c_less_by` -/

/-- The macro `C_MAX(_a, _b)`: `((_a) > (_b) ? (_a) : (_b))` on operands of one
integer type, compared by value. -/
def C_MAX (a b : Int) : Int := if a > b then a else b

/-- The macro `c_max(_a, _b)`: `C_CC_MACRO2(C_MAX, (_a), (_b))`. -/
def c_max (aConst bConst : Bool) (a b : Int) : Int :=
  C_CC_MACRO2 C_MAX aConst bConst a b

/-- The macro `C_MIN(_a, _b)`: `((_a) < (_b) ? (_a) : (_b))` on operands of one
integer type, compared by value. -/
def C_MIN (a b : Int) : Int := if a < b then a else b

/-- The macro `c_min(_a, _b)`: `C_CC_MACRO2(C_MIN, (_a), (_b))`. -/
def c_min (aConst bConst : Bool) (a b : Int) : Int :=
  C_CC_MACRO2 C_MIN aConst bConst a b

/-- The macro `C_LESS_BY(_a, _b)`: `((_a) > (_b) ? (_a) - (_b) : 0)` on unsigned
`w`-bit operands. -/
def C_LESS_BY (w a b : Nat) : Nat := if a > b then usub w a b else 0

/-- The macro `c_less_by(_a, _b)`: `C_CC_MACRO2(C_LESS_BY, (_a), (_b))`. -/
def c_less_by (w : Nat) (aConst bConst : Bool) (a b : Nat) : Nat :=
  C_CC_MACRO2 (C_LESS_BY w) aConst bConst a b

/-! ## Compile-time assertions and `C_DECIMAL_MAX` -/

/-- The macro `C_CC_ASSERT1_MSG(_cond, _msg)`:
`(sizeof(int[!(_cond) * -1]) * 0 + 1)`.  An array type of negative length is
rejected by the compiler (`none`); `sizeof(int)` is 4. -/
def C_CC_ASSERT1_MSG (cond : Bool) : Option Nat :=
  let len : Int := (if cond then 0 else 1) * -1
  if len < 0 then none else some (4 * len.toNat * 0 + 1)

/-- The macro `C_CC_ASSERT1(_cond)`: `C_CC_ASSERT1_MSG((_cond), #_cond)`. -/
def C_CC_ASSERT1 (cond : Bool) : Option Nat := C_CC_ASSERT1_MSG cond

/-- The macro `C_CC_ASSERT_TO(_cond, _expr)`:
`C_CC_IF(C_CC_ASSERT1(_cond), (_expr), ((void)0))`; the void expression yields
no value. -/
def C_CC_ASSERT_TO {α : Type} (cond : Bool) (expr : α) : Option α :=
  match C_CC_ASSERT1 cond with
  | none => none
  | some c => C_CC_IF (c != 0) (some expr) none

/-- An integer type accepted by the `_Generic` selection of `C_DECIMAL_MAX`,
described by its `sizeof` in bytes and its signedness. -/
structure IntType where
  size : Nat
  signed : Bool
  deriving DecidableEq

/-- Whether `x` is a value of the integer type `t`. -/
def IntType.holds (t : IntType) (x : Int) : Bool :=
  if t.signed then
    decide (-(2 : Int) ^ (8 * t.size - 1) ≤ x ∧ x < (2 : Int) ^ (8 * t.size - 1))
  else
    decide (0 ≤ x ∧ x < (2 : Int) ^ (8 * t.size))

/-- The macro `C_INTERNAL_DECIMAL_MAX(_type)`, on `sizeof(_type)`:
`(1 + (sizeof(_type) <= 1 ? 3 : sizeof(_type) <= 2 ? 5 : sizeof(_type) <= 4 ? 10 :
C_CC_ASSERT_TO(sizeof(_type) <= 8, 20)))`. -/
def C_INTERNAL_DECIMAL_MAX (size : Nat) : Option Nat :=
  let inner : Option Nat :=
    if size ≤ 1 then some 3
    else if size ≤ 2 then some 5
    else if size ≤ 4 then some 10
    else C_CC_ASSERT_TO (decide (size ≤ 8)) 20
  match inner with
  | none => none
  | some n => some (1 + n)

/-- The macro `C_DECIMAL_MAX(_type)`: every association of the `_Generic`
selection expands to `C_INTERNAL_DECIMAL_MAX(_type)`. -/
def C_DECIMAL_MAX (t : IntType) : Option Nat := C_INTERNAL_DECIMAL_MAX t.size

/-- The decimal representation of an integer value as it is printed: the decimal
digits of its magnitude, after a `-` when the value is negative. -/
def decimal : Int → String
  | Int.ofNat m => Nat.repr m
  | Int.negSucc m => "-" ++ Nat.repr (m + 1)

/-! ## Array types and `C_ARRAY_SIZE` -/

/-- The C types the array helpers are applied to: integer types, pointers and
arrays of a fixed length. -/
inductive CType where
  | int (t : IntType)
  | ptr (t : CType)
  | array (t : CType) (n : Nat)
  deriving DecidableEq

/-- The value of `sizeof` on a type; `ptrSize` is `__SIZEOF_POINTER__`. -/
def sizeof (ptrSize : Nat) : CType → Nat
  | CType.int t => t.size
  | CType.ptr _ => ptrSize
  | CType.array t n => n * sizeof ptrSize t

/-- The type of `(_x)[0]` for an operand of type `a`; only arrays and pointers
can be subscripted. -/
def subscript0 : CType → Option CType
  | CType.array e _ => some e
  | CType.ptr e => some e
  | CType.int _ => none

/-- The C truth value `!a`. -/
def lnot (a : Nat) : Nat := if a = 0 then 1 else 0

/-- The macro `C_TYPE_MATCH(_a, _b)`: `__builtin_types_compatible_p` on the two
types, 1 when they are the same unqualified type. -/
def C_TYPE_MATCH (a b : CType) : Nat := if a = b then 1 else 0

/-- The macro `C_TYPE_IS_ARRAY(_a)`:
`(!C_TYPE_MATCH(__typeof__(_a), &(*(__typeof__(_a)*)0)[0]))`.  The second operand
is the address of element 0, a pointer to the element type. -/
def C_TYPE_IS_ARRAY (a : CType) : Option Nat :=
  match subscript0 a with
  | none => none
  | some e => some (lnot (C_TYPE_MATCH a (CType.ptr e)))

/-- The macro `C_ARRAY_SIZE(_x)`:
`C_CC_ASSERT_TO(C_TYPE_IS_ARRAY(_x), sizeof(_x) / sizeof((_x)[0]))`. -/
def C_ARRAY_SIZE (ptrSize : Nat) (x : CType) : Option Nat :=
  match C_TYPE_IS_ARRAY x, subscript0 x with
  | some isArray, some e =>
    match C_CC_ASSERT_TO (isArray != 0) (udiv (sizeof ptrSize x) (sizeof ptrSize e)) with
    | some (some n) => some n
    | _ => none
  | _, _ => none

/-! ## Operands with side effects

An operand expression is evaluated in a program state and yields its value and
the next state.  A macro body refers to an operand by textual substitution, so
every reference in the body evaluates the operand expression again; a
reference to a local variable only reads it.  Operands of one operator are
evaluated from left to right. -/

namespace Eff

/-- An expression of type `α` over program states `σ`. -/
def Expr (σ α : Type) : Type := σ → α × σ

/-- A reference to a constant or to a local variable holding `a`. -/
def ret {σ α : Type} (a : α) : Expr σ α := fun s => (a, s)

/-- An operand whose evaluation yields `v` and records the event `i` in the
state, the list of events so far. -/
def observed {α : Type} (i : Nat) (v : α) : Expr (List Nat) α :=
  fun log => (v, log ++ [i])

/-- Evaluating `x` once and then `y` once: both values and the final state. -/
def once2 {σ α β : Type} (x : Expr σ α) (y : Expr σ β) (s : σ) : α × β × σ :=
  let X := x s
  let Y := y X.2
  (X.1, Y.1, Y.2)

/-- Evaluating `x`, `y` and `z` once each, in this order. -/
def once3 {σ α β γ : Type} (x : Expr σ α) (y : Expr σ β) (z : Expr σ γ) (s : σ) :
    α × β × γ × σ :=
  let X := x s
  let Y := y X.2
  let Z := z Y.2
  (X.1, Y.1, Z.1, Z.2)

/-- The macro `C_CC_MACRO2(_call, _x, _y)` on operand expressions:
`C_CC_IF((C_CC_IS_CONST(_x) && C_CC_IS_CONST(_y)), _call((_x), (_y)),
({ const __auto_type X = (_x); const __auto_type Y = (_y); _call(X, Y); }))`. -/
def C_CC_MACRO2 {σ α β γ : Type} (call : Expr σ α → Expr σ β → Expr σ γ)
    (xConst yConst : Bool) (x : Expr σ α) (y : Expr σ β) : Expr σ γ :=
  C_CC_IF (xConst && yConst)
    (call x y)
    (fun s =>
      let X := x s
      let Y := y X.2
      call (ret X.1) (ret Y.1) Y.2)

/-- The macro `C_CC_MACRO3(_call, _x, _y, _z)` on operand expressions. -/
def C_CC_MACRO3 {σ α β γ δ : Type} (call : Expr σ α → Expr σ β → Expr σ γ → Expr σ δ)
    (xConst yConst zConst : Bool) (x : Expr σ α) (y : Expr σ β) (z : Expr σ γ) :
    Expr σ δ :=
  C_CC_IF (xConst && yConst && zConst)
    (call x y z)
    (fun s =>
      let X := x s
      let Y := y X.2
      let Z := z Y.2
      call (ret X.1) (ret Y.1) (ret Z.1) Z.2)

/-- The body `((_a) > (_b) ? (_a) : (_b))` of `C_MAX` on operand expressions. -/
def C_MAX {σ : Type} (a b : Expr σ Int) : Expr σ Int := fun s =>
  let va := a s
  let vb := b va.2
  if va.1 > vb.1 then a vb.2 else b vb.2

/-- The body `((_a) < (_b) ? (_a) : (_b))` of `C_MIN` on operand expressions. -/
def C_MIN {σ : Type} (a b : Expr σ Int) : Expr σ Int := fun s =>
  let va := a s
  let vb := b va.2
  if va.1 < vb.1 then a vb.2 else b vb.2

/-- The body `((_a) > (_b) ? (_a) - (_b) : 0)` of `C_LESS_BY` on operand
expressions. -/
def C_LESS_BY {σ : Type} (w : Nat) (a b : Expr σ Nat) : Expr σ Nat := fun s =>
  let va := a s
  let vb := b va.2
  if va.1 > vb.1 then
    let va2 := a vb.2
    let vb2 := b va2.2
    (usub w va2.1 vb2.1, vb2.2)
  else
    (0, vb.2)

/-- The body `(((_val) + (_to) - 1) & ~((_to) - 1))` of `C_ALIGN_TO` on operand
expressions. -/
def C_ALIGN_TO {σ : Type} (w : Nat) (val to_ : Expr σ Nat) : Expr σ Nat := fun s =>
  let v := val s
  let t := to_ v.2
  let t2 := to_ t.2
  (uand (usub w (uadd w v.1 t.1) 1) (unot w (usub w t2.1 1)), t2.2)

/-- The body `((_x) / (_y) + !!((_x) % (_y)))` of `C_DIV_ROUND_UP` on operand
expressions. -/
def C_DIV_ROUND_UP {σ : Type} (w : Nat) (x y : Expr σ Nat) : Expr σ (Option Nat) :=
  fun s =>
    let vx := x s
    let vy := y vx.2
    let vx2 := x vy.2
    let vy2 := y vx2.2
    (match udiv vx.1 vy.1, umod vx2.1 vy2.1 with
      | some q, some r => some (uadd w q (notnot r))
      | _, _ => none,
     vy2.2)

/-- The body `((_x) > (_high) ? (_high) : (_x) < (_low) ? (_low) : (_x))` of
`C_CLAMP` on operand expressions. -/
def C_CLAMP {σ : Type} (x low high : Expr σ Int) : Expr σ Int := fun s =>
  let vx := x s
  let vh := high vx.2
  if vx.1 > vh.1 then high vh.2
  else
    let vx2 := x vh.2
    let vl := low vx2.2
    if vx2.1 < vl.1 then low vl.2 else x vl.2

/-- The macro `c_max(_a, _b)` on operand expressions. -/
def c_max {σ : Type} (aConst bConst : Bool) (a b : Expr σ Int) : Expr σ Int :=
  C_CC_MACRO2 C_MAX aConst bConst a b

/-- The macro `c_min(_a, _b)` on operand expressions. -/
def c_min {σ : Type} (aConst bConst : Bool) (a b : Expr σ Int) : Expr σ Int :=
  C_CC_MACRO2 C_MIN aConst bConst a b

/-- The macro `c_less_by(_a, _b)` on operand expressions. -/
def c_less_by {σ : Type} (w : Nat) (aConst bConst : Bool) (a b : Expr σ Nat) :
    Expr σ Nat :=
  C_CC_MACRO2 (C_LESS_BY w) aConst bConst a b

/-- The macro `c_align_to(_val, _to)` on operand expressions. -/
def c_align_to {σ : Type} (w : Nat) (valConst toConst : Bool) (val to_ : Expr σ Nat) :
    Expr σ Nat :=
  C_CC_MACRO2 (C_ALIGN_TO w) valConst toConst val to_

/-- The macro `c_div_round_up(_x, _y)` on operand expressions. -/
def c_div_round_up {σ : Type} (w : Nat) (xConst yConst : Bool) (x y : Expr σ Nat) :
    Expr σ (Option Nat) :=
  C_CC_MACRO2 (C_DIV_ROUND_UP w) xConst yConst x y

/-- The macro `c_clamp(_x, _low, _high)` on operand expressions. -/
def c_clamp {σ : Type} (xConst lowConst highConst : Bool) (x low high : Expr σ Int) :
    Expr σ Int :=
  C_CC_MACRO3 C_CLAMP xConst lowConst highConst x low high

/-- The macro `c_container_of(_ptr, _type, _member)`, that is
`c_internal_container_of`, with pointers as addresses of `w` bits, `NULL` as
address 0 and `off` for `offsetof(_type, _member)`:
`({ const __typeof__(((_type*)0)->_member) *A = (_ptr);
(_ptr) ? (_type*)((char*)A - offsetof(_type, _member)) : NULL; })`. -/
def c_container_of {σ : Type} (w : Nat) (ptr : Expr σ Nat) (off : Nat) : Expr σ Nat :=
  fun s =>
    let A := ptr s
    let c := ptr A.2
    (if c.1 ≠ 0 then usub w A.1 off else 0, c.2)

end Eff

/-! ## Operations of `c_align_power2` with an undefined case -/

/-- An operation with an undefined case that `c_internal_align_power2` performs:
`c_clz` on an argument, or a left shift by an amount. -/
inductive Op where
  | clz (arg : Nat)
  | shl (amount : Nat)
  deriving DecidableEq

/-- The macro `c_align_power2(_val)` on an unsigned `w`-bit operand, together
with the list of the `c_clz` arguments and shift amounts it evaluates, in
order: `c_clz(v - 1)` in the condition of the `else if`, and `c_clz(v - 1)`
again and the shift in the last branch. -/
def c_align_power2_ops (w val : Nat) : List Op × Option Nat :=
  let v := val
  if v = 1 then
    ([], some 1)
  else
    match c_clz w (usub w v 1) with
    | none => ([Op.clz (usub w v 1)], none)
    | some z =>
      if z < 1 then
        ([Op.clz (usub w v 1)], some 0)
      else
        ([Op.clz (usub w v 1), Op.clz (usub w v 1), Op.shl (w - z)], ushl w 1 (w - z))

/-! ## Round-up division by the sum formula -/

/-- Unsigned `a * b` in a `w`-bit type. -/
def umul (w a b : Nat) : Nat := (a * b) % 2 ^ w

/-- The formula `(x + y - 1) / y` evaluated in the unsigned `w`-bit type, which
the note on `c_div_round_up` and the specification contrast with
`x / y + !!(x % y)`. -/
def div_round_up_by_sum (w x y : Nat) : Option Nat :=
  udiv (usub w (uadd w x y) 1) y

/-! ## Operands of different widths -/

namespace Mixed

/-- The macro `C_ALIGN_TO(_val, _to)`: `(((_val) + (_to) - 1) & ~((_to) - 1))` for
an unsigned `wv`-bit `_val` and an unsigned `wt`-bit `_to`.  The sum is computed
in the wider of the two types; `~((_to) - 1)` is computed in the type of `_to`
and converted, by zero extension, for `&`. -/
def C_ALIGN_TO (wv wt val to_ : Nat) : Nat :=
  let wc := max wv wt
  uand (usub wc (uadd wc val to_) 1) (unot wt (usub wt to_ 1))

/-- The macro `c_align_to(_val, _to)`: `C_CC_MACRO2(C_ALIGN_TO, (_val), (_to))`;
the variables declared with `__auto_type` keep the types of the operands. -/
def c_align_to (wv wt : Nat) (valConst toConst : Bool) (val to_ : Nat) : Nat :=
  C_CC_MACRO2 (C_ALIGN_TO wv wt) valConst toConst val to_

end Mixed

/-! ## Helper lemmas -/

theorem C_CC_MACRO2_eq {α β γ : Type} (call : α → β → γ) (cx cy : Bool) (x : α) (y : β) :
    C_CC_MACRO2 call cx cy x y = call x y := by
  unfold C_CC_MACRO2 C_CC_IF
  split <;> rfl

theorem C_CC_MACRO3_eq {α β γ δ : Type} (call : α → β → γ → δ) (cx cy cz : Bool)
    (x : α) (y : β) (z : γ) :
    C_CC_MACRO3 call cx cy cz x y z = call x y z := by
  unfold C_CC_MACRO3 C_CC_IF
  split <;> rfl

theorem two_pow_pos_aux (w : Nat) : 0 < 2 ^ w := Nat.two_pow_pos w

/-- The wrapped value of `val + to - 1`. -/
theorem usub_uadd_one (w a b : Nat) :
    usub w (uadd w a b) 1 = (a + b + (2 ^ w - 1)) % 2 ^ w := by
  have hp := two_pow_pos_aux w
  unfold usub uadd
  rw [Nat.add_sub_assoc hp, Nat.add_mod, Nat.mod_mod, ← Nat.add_mod]

theorem usub_one_of_pos (w t : Nat) (h0 : 0 < t) (ht : t < 2 ^ w) :
    usub w t 1 = t - 1 := by
  unfold usub
  have : t + 2 ^ w - 1 = (t - 1) + 2 ^ w := by omega
  rw [this, Nat.add_mod_right, Nat.mod_eq_of_lt (by omega)]

theorem usub_lt (w a b : Nat) : usub w a b < 2 ^ w :=
  Nat.mod_lt _ (two_pow_pos_aux w)

/-- Bits of `x & ~m` in a `w`-bit type. -/
theorem testBit_uand_unot (w x m i : Nat) (hm : m < 2 ^ w) :
    (uand x (unot w m)).testBit i = (x.testBit i && (decide (i < w) && !m.testBit i)) := by
  unfold uand unot
  rw [Nat.testBit_and]
  have : 2 ^ w - 1 - m = 2 ^ w - (m + 1) := by omega
  rw [this, Nat.testBit_two_pow_sub_succ hm]

theorem testBit_eq_false_of_lt (x w i : Nat) (hx : x < 2 ^ w) (hi : w ≤ i) :
    x.testBit i = false :=
  Nat.testBit_lt_two_pow (Nat.lt_of_lt_of_le hx (Nat.pow_le_pow_right (by decide) hi))

/-- Masking with `~(2 ^ k - 1)` clears the low `k` bits. -/
theorem uand_unot_pow (w k x : Nat) (hk : k ≤ w) (hx : x < 2 ^ w) :
    uand x (unot w (2 ^ k - 1)) = 2 ^ k * (x / 2 ^ k) := by
  have hkw : 2 ^ k ≤ 2 ^ w := Nat.pow_le_pow_right (by decide) hk
  have hp := two_pow_pos_aux k
  apply Nat.eq_of_testBit_eq
  intro i
  rw [testBit_uand_unot w x _ i (by omega), Nat.testBit_two_pow_sub_one,
    Nat.testBit_mul_pow_two, ← Nat.shiftRight_eq_div_pow, Nat.testBit_shiftRight]
  by_cases hik : i < k
  · simp [hik, Nat.not_le_of_lt hik]
  · have hki : k ≤ i := Nat.le_of_not_lt hik
    have e : k + (i - k) = i := by omega
    by_cases hiw : i < w
    · simp [hik, hki, hiw, e]
    · have := testBit_eq_false_of_lt x w i hx (Nat.le_of_not_lt hiw)
      simp [hki, e, this]

/-- Addition of two numbers without a common bit is their bitwise or. -/
theorem add_eq_or_of_and_eq_zero : ∀ (a b : Nat), a &&& b = 0 → a + b = a ||| b := by
  intro a
  induction a using Nat.strong_induction_on with
  | _ a ih =>
    intro b h
    by_cases ha : a = 0
    · subst ha; simp
    · have h2 : a / 2 &&& b / 2 = 0 := by rw [← Nat.and_div_two, h]
      have ih2 := ih (a / 2) (by omega) (b / 2) h2
      rw [← Nat.or_div_two] at ih2
      have hm : ¬ ((a &&& b) % 2 = 1) := by rw [h]; decide
      rw [Nat.and_mod_two_eq_one] at hm
      have ho := @Nat.or_mod_two_eq_one a b
      by_cases h1 : (a ||| b) % 2 = 1
      · have := ho.mp h1
        omega
      · have hn : ¬ (a % 2 = 1 ∨ b % 2 = 1) := fun hh => h1 (ho.mpr hh)
        omega

theorem C_ALIGN_TO_pow (w k val : Nat) (hk : k < w) :
    C_ALIGN_TO w val (2 ^ k) =
      2 ^ k * ((val + 2 ^ k + (2 ^ w - 1)) % 2 ^ w / 2 ^ k) := by
  have hkw : 2 ^ k < 2 ^ w := Nat.pow_lt_pow_right (by decide) hk
  unfold C_ALIGN_TO
  rw [usub_one_of_pos w (2 ^ k) (two_pow_pos_aux k) hkw, usub_uadd_one,
    uand_unot_pow w k _ (Nat.le_of_lt hk) (Nat.mod_lt _ (two_pow_pos_aux w))]

/-- When `val + to - 1` exceeds the maximum of the type, `C_ALIGN_TO` yields 0. -/
theorem C_ALIGN_TO_wrap (w k val : Nat) (hk : k < w) (hv : val < 2 ^ w)
    (hw : 2 ^ w ≤ val + 2 ^ k - 1) : C_ALIGN_TO w val (2 ^ k) = 0 := by
  have hkw : 2 ^ k < 2 ^ w := Nat.pow_lt_pow_right (by decide) hk
  have hp := two_pow_pos_aux k
  rw [C_ALIGN_TO_pow w k val hk]
  have e : val + 2 ^ k + (2 ^ w - 1) = (val + 2 ^ k - 1 - 2 ^ w) + 2 ^ w + 2 ^ w := by omega
  rw [e, Nat.add_mod_right, Nat.add_mod_right, Nat.mod_eq_of_lt (by omega),
    Nat.div_eq_of_lt (by omega)]
  simp

/-! ## Claims -/

/-- C1 (amended): for an unsigned `w`-bit `val` and a power of two `to = 2 ^ k` of
the same type such that `val + to - 1` does not exceed the maximum of the type,
`c_align_to(val, to)` is `val` rounded up to the next multiple of `to`: it is a
multiple of `to`, it is at least `val`, and it exceeds `val` by less than `to`. -/
theorem c_align_to_rounds_up (w k val : Nat) (cv ct : Bool) (hk : k < w)
    (hv : val < 2 ^ w) (hfit : val + 2 ^ k - 1 < 2 ^ w) :
    2 ^ k ∣ c_align_to w cv ct val (2 ^ k) ∧
      val ≤ c_align_to w cv ct val (2 ^ k) ∧
      c_align_to w cv ct val (2 ^ k) - val < 2 ^ k := by
  have hp := two_pow_pos_aux k
  unfold c_align_to
  rw [C_CC_MACRO2_eq, C_ALIGN_TO_pow w k val hk]
  have e : val + 2 ^ k + (2 ^ w - 1) = (val + 2 ^ k - 1) + 2 ^ w := by omega
  rw [e, Nat.add_mod_right, Nat.mod_eq_of_lt hfit]
  have hdm := Nat.div_add_mod (val + 2 ^ k - 1) (2 ^ k)
  have hlt := Nat.mod_lt (val + 2 ^ k - 1) hp
  refine ⟨Nat.dvd_mul_right _ _, ?_, ?_⟩ <;> omega

theorem c_align_to_rounds_up_witness :
    2 ^ 3 ∣ c_align_to 32 false true 13 (2 ^ 3) ∧
      13 ≤ c_align_to 32 false true 13 (2 ^ 3) ∧
      c_align_to 32 false true 13 (2 ^ 3) - 13 < 2 ^ 3 :=
  c_align_to_rounds_up 32 3 13 false true (by decide) (by decide) (by decide)

/-- C1 (counterexample): for the 32-bit value `2 ^ 32 - 1` and `to = 8` the sum
`val + to - 1` wraps around and `c_align_to` yields 0, which is below `val`: the
result is not `val` rounded up to the next multiple of `to`. -/
theorem c_align_to_rounds_up_counterexample :
    c_align_to 32 false true (2 ^ 32 - 1) (2 ^ 3) = 0 ∧
      ¬ (2 ^ 3 ∣ c_align_to 32 false true (2 ^ 32 - 1) (2 ^ 3) ∧
        2 ^ 32 - 1 ≤ c_align_to 32 false true (2 ^ 32 - 1) (2 ^ 3) ∧
        c_align_to 32 false true (2 ^ 32 - 1) (2 ^ 3) - (2 ^ 32 - 1) < 2 ^ 3) := by
  have h : c_align_to 32 false true (2 ^ 32 - 1) (2 ^ 3) = 0 := by decide
  refine ⟨h, ?_⟩
  rw [h]
  decide

theorem C_ALIGN_TO_idem (w val to_ : Nat) :
    C_ALIGN_TO w (C_ALIGN_TO w val to_) to_ = C_ALIGN_TO w val to_ := by
  have hm : usub w to_ 1 < 2 ^ w := usub_lt w to_ 1
  have hy : usub w (uadd w val to_) 1 < 2 ^ w := usub_lt w _ 1
  generalize hr : C_ALIGN_TO w val to_ = r
  have hbit : ∀ i, r.testBit i =
      ((usub w (uadd w val to_) 1).testBit i &&
        (decide (i < w) && !(usub w to_ 1).testBit i)) := by
    intro i
    rw [← hr]
    exact testBit_uand_unot w _ _ i hm
  have hdisj : r &&& usub w to_ 1 = 0 := by
    apply Nat.eq_of_testBit_eq
    intro i
    rw [Nat.testBit_and, hbit i]
    cases (usub w to_ 1).testBit i <;> simp
  have hrlt : r < 2 ^ w := by
    apply Nat.lt_pow_two_of_testBit
    intro i hi
    rw [hbit i]
    simp [Nat.not_lt_of_le hi]
  have hor : r + usub w to_ 1 = r ||| usub w to_ 1 := add_eq_or_of_and_eq_zero _ _ hdisj
  have hsum : usub w (uadd w r to_) 1 = r ||| usub w to_ 1 := by
    rw [usub_uadd_one, ← hor]
    have e : usub w to_ 1 = (to_ + (2 ^ w - 1)) % 2 ^ w := by
      unfold usub
      rw [Nat.add_sub_assoc (two_pow_pos_aux w)]
    have hlt : r + usub w to_ 1 < 2 ^ w := by
      rw [hor]
      exact Nat.or_lt_two_pow hrlt hm
    rw [Nat.add_assoc, Nat.add_mod, ← e, Nat.mod_eq_of_lt hrlt, Nat.mod_eq_of_lt hlt]
  show uand (usub w (uadd w r to_) 1) (unot w (usub w to_ 1)) = r
  rw [hsum]
  apply Nat.eq_of_testBit_eq
  intro i
  rw [testBit_uand_unot w _ _ i hm, Nat.testBit_or, hbit i]
  cases (usub w (uadd w val to_) 1).testBit i <;> cases (usub w to_ 1).testBit i <;> simp

/-- C4 (the code at the failing input): with both operands compile-time constants
and `to = 3`, which is not a power of two, `c_align_to(5, 3)` is not rejected:
it compiles and evaluates to 5. -/
theorem c_align_to_cc_five_three : c_align_to_cc 32 true true 5 3 = some 5 := by
  decide

theorem testBit_top (n v : Nat) (h1 : 2 ^ n ≤ v) (h2 : v < 2 ^ (n + 1)) :
    v.testBit n = true := by
  have e : v = 2 ^ n + (v - 2 ^ n) := by omega
  have hlt : v - 2 ^ n < 2 ^ n := by
    rw [Nat.pow_succ] at h2
    omega
  rw [e, Nat.testBit_two_pow_add_eq, Nat.testBit_lt_two_pow hlt]
  rfl

/-- Leading zeroes of a value whose highest set bit is bit `j`. -/
theorem clzAux_eq (v j : Nat) (h1 : 2 ^ j ≤ v) (h2 : v < 2 ^ (j + 1)) :
    ∀ n, j < n → clzAux v n = n - 1 - j := by
  intro n
  induction n with
  | zero => intro h; omega
  | succ n ih =>
    intro hj
    unfold clzAux
    by_cases hjn : j = n
    · subst hjn
      rw [testBit_top j v h1 h2]
      simp
    · have hlt : j < n := by omega
      have hb : v.testBit n = false :=
        testBit_eq_false_of_lt v (j + 1) n h2 (by omega)
      rw [hb, ih hlt]
      simp
      omega

/-- The macro `c_align_power2` yields 0 when the top bit of `val - 1` is set. -/
theorem c_align_power2_top (w val : Nat) (hne : val ≠ 1)
    (h : 2 ^ w ≤ usub (w + 1) val 1) : c_align_power2 (w + 1) val = some 0 := by
  have hlt := usub_lt (w + 1) val 1
  have hpos := two_pow_pos_aux w
  have hz : clzAux (usub (w + 1) val 1) (w + 1) = 0 := by
    rw [clzAux_eq _ w h hlt (w + 1) (by omega)]
    omega
  have hne0 : usub (w + 1) val 1 ≠ 0 := by omega
  simp [c_align_power2, c_clz, builtin_clz, hne, hne0, hz]

/-- The value of `c_align_power2` on a value `val >= 2` whose predecessor has its highest set
bit at position `j`, below the top bit. -/
theorem c_align_power2_mid (w val j : Nat) (h2 : 2 ≤ val) (hle : val ≤ 2 ^ w)
    (hj1 : 2 ^ j ≤ val - 1) (hj2 : val - 1 < 2 ^ (j + 1)) :
    c_align_power2 (w + 1) val = some (2 ^ (j + 1)) := by
  have hjw : j < w := by
    by_contra hcon
    have : 2 ^ w ≤ 2 ^ j := Nat.pow_le_pow_right (by decide) (by omega)
    omega
  have hw2 : 2 ^ (w + 1) = 2 * 2 ^ w := by rw [Nat.pow_succ]; omega
  have hu : usub (w + 1) val 1 = val - 1 :=
    usub_one_of_pos (w + 1) val (by omega) (by omega)
  have hz : clzAux (val - 1) (w + 1) = w - j := by
    rw [clzAux_eq _ j hj1 hj2 (w + 1) (by omega)]
    omega
  have hs : w + 1 - (w - j) = j + 1 := by omega
  have hpow : 2 ^ (j + 1) < 2 ^ (w + 1) := Nat.pow_lt_pow_right (by decide) (by omega)
  have hne : val ≠ 1 := by omega
  have hne0 : val - 1 ≠ 0 := by omega
  have hnz : ¬ (w - j < 1) := by omega
  simp only [c_align_power2, c_clz, builtin_clz, hu, hne, hne0, hz, hnz, hs, ushl,
    if_false]
  simp [Nat.mod_eq_of_lt hpow]
  omega

theorem exists_top_bit (v : Nat) (hv : 0 < v) : ∃ j, 2 ^ j ≤ v ∧ v < 2 ^ (j + 1) :=
  ⟨v.log2, Nat.log2_self_le (by omega), Nat.lt_log2_self⟩

/-- C5: for every unsigned `w`-bit `val` with `1 <= val <= 2 ^ (w - 1)`,
`c_align_power2(val)` returns the smallest power of two that is `>= val`: the
result is a power of two, it is `>= val` and `< 2 * val`, no power of two lies
between `val` and it, and a power of two is returned unchanged; in particular
1 yields 1, 5 yields 8 and 8 yields 8, as 32-bit and as 64-bit operands. -/
theorem c_align_power2_smallest_pow2 (w val : Nat) (hw : 0 < w) (h1 : 1 ≤ val)
    (hle : val ≤ 2 ^ (w - 1)) :
    (∃ r, c_align_power2 w val = some r ∧ (∃ i, r = 2 ^ i) ∧ val ≤ r ∧ r < 2 * val ∧
        (∀ i, val ≤ 2 ^ i → r ≤ 2 ^ i) ∧ ((∃ i, val = 2 ^ i) → r = val)) ∧
      (c_align_power2 32 1 = some 1 ∧ c_align_power2 32 5 = some 8 ∧
        c_align_power2 32 8 = some 8 ∧ c_align_power2 64 1 = some 1 ∧
        c_align_power2 64 5 = some 8 ∧ c_align_power2 64 8 = some 8) := by
  refine ⟨?_, by decide⟩
  obtain ⟨w, rfl⟩ : ∃ n, w = n + 1 := ⟨w - 1, by omega⟩
  simp only [Nat.add_sub_cancel] at hle
  by_cases hone : val = 1
  · subst hone
    refine ⟨1, by simp [c_align_power2], ⟨0, rfl⟩, Nat.le_refl _, by decide,
      fun i h => h, fun _ => rfl⟩
  · have h2 : 2 ≤ val := by omega
    obtain ⟨j, hj1, hj2⟩ := exists_top_bit (val - 1) (by omega)
    have hpj : 2 ^ (j + 1) = 2 * 2 ^ j := by rw [Nat.pow_succ]; omega
    have hmin : ∀ i, val ≤ 2 ^ i → 2 ^ (j + 1) ≤ 2 ^ i := by
      intro i hi
      apply Nat.pow_le_pow_right (by decide)
      by_contra hcon
      have : 2 ^ i ≤ 2 ^ j := Nat.pow_le_pow_right (by decide) (by omega)
      omega
    refine ⟨2 ^ (j + 1), c_align_power2_mid w val j h2 hle hj1 hj2, ⟨j + 1, rfl⟩,
      by omega, by omega, hmin, ?_⟩
    rintro ⟨i, hi⟩
    have := hmin i (by omega)
    omega

theorem c_align_power2_smallest_pow2_witness :
    (∃ r, c_align_power2 32 5 = some r ∧ (∃ i, r = 2 ^ i) ∧ 5 ≤ r ∧ r < 2 * 5 ∧
        (∀ i, 5 ≤ 2 ^ i → r ≤ 2 ^ i) ∧ ((∃ i, 5 = 2 ^ i) → r = 5)) ∧
      (c_align_power2 32 1 = some 1 ∧ c_align_power2 32 5 = some 8 ∧
        c_align_power2 32 8 = some 8 ∧ c_align_power2 64 1 = some 1 ∧
        c_align_power2 64 5 = some 8 ∧ c_align_power2 64 8 = some 8) :=
  c_align_power2_smallest_pow2 32 5 (by decide) (by decide) (by decide)

/-- C6: for every unsigned `w`-bit `val`, `c_align_power2(val)` returns a value,
and that value is 0 if and only if `val == 0` or `val > 2 ^ (w - 1)`. -/
theorem c_align_power2_eq_zero_iff (w val : Nat) (hw : 0 < w) (hv : val < 2 ^ w) :
    ∃ r, c_align_power2 w val = some r ∧ (r = 0 ↔ val = 0 ∨ 2 ^ (w - 1) < val) := by
  obtain ⟨w, rfl⟩ : ∃ n, w = n + 1 := ⟨w - 1, by omega⟩
  simp only [Nat.add_sub_cancel]
  have hw2 : 2 ^ (w + 1) = 2 * 2 ^ w := by rw [Nat.pow_succ]; omega
  have hpos := two_pow_pos_aux w
  by_cases hone : val = 1
  · subst hone
    exact ⟨1, by simp [c_align_power2], by omega⟩
  · by_cases hzero : val = 0
    · subst hzero
      refine ⟨0, c_align_power2_top w 0 hone ?_, by simp⟩
      have : usub (w + 1) 0 1 = 2 ^ (w + 1) - 1 := by
        unfold usub
        rw [Nat.zero_add, Nat.mod_eq_of_lt (by omega)]
      omega
    · have hu : usub (w + 1) val 1 = val - 1 :=
        usub_one_of_pos (w + 1) val (by omega) hv
      by_cases hbig : 2 ^ w < val
      · exact ⟨0, c_align_power2_top w val hone (by omega), by simp [hbig]⟩
      · obtain ⟨j, hj1, hj2⟩ := exists_top_bit (val - 1) (by omega)
        have hpj := two_pow_pos_aux (j + 1)
        refine ⟨2 ^ (j + 1),
          c_align_power2_mid w val j (by omega) (by omega) hj1 hj2, ?_⟩
        constructor
        · intro h; omega
        · intro h; omega

theorem c_align_power2_eq_zero_iff_witness :
    ∃ r, c_align_power2 64 (2 ^ 63 + 1) = some r ∧
      (r = 0 ↔ 2 ^ 63 + 1 = 0 ∨ 2 ^ (64 - 1) < 2 ^ 63 + 1) :=
  c_align_power2_eq_zero_iff 64 (2 ^ 63 + 1) (by decide) (by decide)

theorem notnot_le_one (a : Nat) : notnot a ≤ 1 := by
  unfold notnot
  split <;> omega

/-- The quotient plus the rounding bit, multiplied back, brackets the dividend. -/
theorem div_round_up_bounds (x y : Nat) (hpos : 0 < y) :
    x ≤ (x / y + notnot (x % y)) * y ∧ (x / y + notnot (x % y)) * y < x + y ∧
      x / y + notnot (x % y) ≤ x := by
  have hdm := Nat.div_add_mod x y
  have hlt := Nat.mod_lt x hpos
  have hq : x / y ≤ y * (x / y) := Nat.le_mul_of_pos_left _ hpos
  by_cases hr : x % y = 0
  · simp only [notnot, hr, ne_eq, not_true_eq_false, if_false, Nat.add_zero]
    rw [Nat.mul_comm]
    omega
  · simp only [notnot, hr, ne_eq, not_false_eq_true, if_true]
    rw [Nat.add_mul, Nat.one_mul, Nat.mul_comm]
    omega

/-- C7: for unsigned `w`-bit `x` and `y` with `y > 0`, `c_div_round_up(x, y)`
returns the mathematical ceiling of `x / y`; the quotient, the remainder and
their sum `x / y + !!(x % y)` all stay within the `w`-bit range, so nothing
wraps; in particular `c_div_round_up(UINT_MAX, 1) == UINT_MAX`. -/
theorem c_div_round_up_eq_ceil (w x y : Nat) (cx cy : Bool) (hx : x < 2 ^ w)
    (hy : y < 2 ^ w) (hpos : 0 < y) :
    (∃ r, c_div_round_up w cx cy x y = some r ∧ (r : Int) = ⌈(x : ℚ) / (y : ℚ)⌉) ∧
      (x / y < 2 ^ w ∧ x % y < 2 ^ w ∧ x / y + notnot (x % y) < 2 ^ w) ∧
      c_div_round_up w cx cy (2 ^ w - 1) 1 = some (2 ^ w - 1) := by
  obtain ⟨hb1, hb2, hb3⟩ := div_round_up_bounds x y hpos
  have hy0 : y ≠ 0 := by omega
  have hfit : x / y + notnot (x % y) < 2 ^ w := by omega
  have hyq : (0 : ℚ) < (y : ℚ) := by exact_mod_cast hpos
  refine ⟨⟨x / y + notnot (x % y), ?_, ?_⟩, ⟨?_, ?_, hfit⟩, ?_⟩
  · unfold c_div_round_up
    rw [C_CC_MACRO2_eq]
    simp [C_DIV_ROUND_UP, udiv, umod, hy0, uadd, Nat.mod_eq_of_lt hfit]
  · symm
    rw [Int.ceil_eq_iff]
    have c1 : (x : ℚ) ≤ ((x / y + notnot (x % y) : Nat) : ℚ) * (y : ℚ) := by
      exact_mod_cast hb1
    have c2 : ((x / y + notnot (x % y) : Nat) : ℚ) * (y : ℚ) < (x : ℚ) + (y : ℚ) := by
      exact_mod_cast hb2
    generalize x / y + notnot (x % y) = r at c1 c2
    rw [Int.cast_natCast]
    constructor
    · rw [lt_div_iff₀ hyq]
      linarith
    · rw [div_le_iff₀ hyq]
      linarith
  · exact Nat.lt_of_le_of_lt (Nat.div_le_self x y) hx
  · exact Nat.lt_trans (Nat.mod_lt x hpos) hy
  · have hmax : 2 ^ w - 1 < 2 ^ w := by omega
    unfold c_div_round_up
    rw [C_CC_MACRO2_eq]
    simp [C_DIV_ROUND_UP, udiv, umod, uadd, notnot, Nat.mod_one, Nat.mod_eq_of_lt hmax]

theorem c_div_round_up_eq_ceil_witness :
    (∃ r, c_div_round_up 32 false true 7 2 = some r ∧
        (r : Int) = ⌈((7 : Nat) : ℚ) / ((2 : Nat) : ℚ)⌉) ∧
      (7 / 2 < 2 ^ 32 ∧ 7 % 2 < 2 ^ 32 ∧ 7 / 2 + notnot (7 % 2) < 2 ^ 32) ∧
      c_div_round_up 32 false true (2 ^ 32 - 1) 1 = some (2 ^ 32 - 1) :=
  c_div_round_up_eq_ceil 32 7 2 false true (by decide) (by decide) (by decide)

theorem ceil_div_eq (x y z : Int) (hy : 0 < y) (h1 : (z - 1) * y < x)
    (h2 : x ≤ z * y) : ⌈(x : ℚ) / (y : ℚ)⌉ = z := by
  have hyq : (0 : ℚ) < (y : ℚ) := by exact_mod_cast hy
  have c1 : ((z : ℚ) - 1) * (y : ℚ) < (x : ℚ) := by exact_mod_cast h1
  have c2 : (x : ℚ) ≤ (z : ℚ) * (y : ℚ) := by exact_mod_cast h2
  rw [Int.ceil_eq_iff]
  constructor
  · rw [lt_div_iff₀ hyq]
    exact c1
  · rw [div_le_iff₀ hyq]
    exact c2

/-- Sign and size of the remainder of the truncating division. -/
theorem tmod_bounds (x y : Int) (hy : 0 < y) :
    (0 ≤ x → 0 ≤ x.tmod y ∧ x.tmod y < y ∧ 0 ≤ x.tdiv y) ∧
      (x < 0 → -y < x.tmod y ∧ x.tmod y ≤ 0 ∧ x.tdiv y ≤ 0) := by
  constructor
  · intro hx
    exact ⟨Int.tmod_nonneg y hx, Int.tmod_lt_of_pos x hy,
      Int.tdiv_nonneg hx (Int.le_of_lt hy)⟩
  · intro hx
    have e : x = -(-x) := by omega
    have hn : 0 ≤ -x := by omega
    have h1 := Int.tmod_nonneg y hn
    have h2 := Int.tmod_lt_of_pos (-x) hy
    have h3 := Int.tdiv_nonneg hn (Int.le_of_lt hy)
    have hd : x.tdiv y = -((-x).tdiv y) := by
      conv => lhs; rw [e, Int.neg_tdiv]
    have hm : x.tmod y = -((-x).tmod y) := by
      rw [Int.tmod_def, Int.tmod_def, hd]
      have : y * -(-x).tdiv y = -(y * (-x).tdiv y) := Int.mul_neg _ _
      omega
    omega

/-- What `C_DIV_ROUND_UP` computes on signed operands with a positive divisor:
the ceiling of the quotient, plus one when `x` is negative and not a multiple
of `y`. -/
theorem Signed_C_DIV_ROUND_UP_eq (w : Nat) (x y : Int) (hx : Signed.fits w x = true)
    (hy : Signed.fits w y = true) (hpos : 0 < y) :
    Signed.C_DIV_ROUND_UP w x y =
      some (⌈(x : ℚ) / (y : ℚ)⌉ + (if x < 0 ∧ x.tmod y ≠ 0 then 1 else 0)) := by
  simp only [Signed.fits, decide_eq_true_eq] at hx hy
  obtain ⟨hpx, hnx⟩ := tmod_bounds x y hpos
  have hdm := Int.tdiv_add_tmod x y
  have hy0 : y ≠ 0 := by omega
  generalize hq : x.tdiv y = q at *
  generalize hr : x.tmod y = r at *
  generalize hP : (2 : Int) ^ (w - 1) = P at *
  have hqy : y * q = q + (y - 1) * q := by ring
  have hqfit : Signed.fits w q = true := by
    simp only [Signed.fits, decide_eq_true_eq, hP]
    by_cases h0 : 0 ≤ x
    · obtain ⟨h1, h2, h3⟩ := hpx h0
      have : 0 ≤ (y - 1) * q := Int.mul_nonneg (by omega) h3
      omega
    · obtain ⟨h1, h2, h3⟩ := hnx (by omega)
      have : (y - 1) * q ≤ 0 := Int.mul_nonpos_of_nonneg_of_nonpos (by omega) h3
      omega
  have e1 : (q - 1) * y = y * q - y := by ring
  have e2 : (q + 1 - 1) * y = y * q := by ring
  have e3 : (q + 1) * y = y * q + y := by ring
  have e4 : q * y = y * q := by ring
  by_cases h0 : 0 ≤ x
  · obtain ⟨h1, h2, h3⟩ := hpx h0
    have hnn : 0 ≤ (y - 1) * q := Int.mul_nonneg (by omega) h3
    by_cases hr0 : r = 0
    · have hceil : ⌈(x : ℚ) / (y : ℚ)⌉ = q :=
        ceil_div_eq x y q hpos (by omega) (by omega)
      have hfit : Signed.fits w (q + 0) = true := by simpa using hqfit
      simp [Signed.C_DIV_ROUND_UP, Signed.sdiv, Signed.smod, Signed.sadd, Signed.notnot,
        hy0, hq, hr, hqfit, hr0, hceil, hfit]
    · have hceil : ⌈(x : ℚ) / (y : ℚ)⌉ = q + 1 :=
        ceil_div_eq x y (q + 1) hpos (by omega) (by omega)
      have hfit : Signed.fits w (q + 1) = true := by
        simp only [Signed.fits, decide_eq_true_eq, hP]
        omega
      simp [Signed.C_DIV_ROUND_UP, Signed.sdiv, Signed.smod, Signed.sadd, Signed.notnot,
        hy0, hq, hr, hqfit, hr0, hceil, hfit, h0]
  · obtain ⟨h1, h2, h3⟩ := hnx (by omega)
    have hnp : (y - 1) * q ≤ 0 := Int.mul_nonpos_of_nonneg_of_nonpos (by omega) h3
    have hceil : ⌈(x : ℚ) / (y : ℚ)⌉ = q :=
      ceil_div_eq x y q hpos (by omega) (by omega)
    by_cases hr0 : r = 0
    · have hfit : Signed.fits w (q + 0) = true := by simpa using hqfit
      simp [Signed.C_DIV_ROUND_UP, Signed.sdiv, Signed.smod, Signed.sadd, Signed.notnot,
        hy0, hq, hr, hqfit, hr0, hceil, hfit]
    · have hfit : Signed.fits w (q + 1) = true := by
        simp only [Signed.fits, decide_eq_true_eq, hP]
        omega
      have hxneg : x < 0 := by omega
      simp [Signed.C_DIV_ROUND_UP, Signed.sdiv, Signed.smod, Signed.sadd, Signed.notnot,
        hy0, hq, hr, hqfit, hr0, hceil, hfit, hxneg]

/-- C8 (the code at the failing input): for the signed 32-bit operands `x = -5`
and `y = 2`, `c_div_round_up` returns -1, while the ceiling of `-5 / 2` is -2.
In general, for signed `w`-bit `x` and `y` with `y > 0`, `c_div_round_up(x, y)`
returns the ceiling of `x / y` plus one when `x` is negative and not a multiple
of `y`, and the ceiling itself otherwise. -/
theorem c_div_round_up_signed_neg :
    Signed.c_div_round_up 32 true true (-5) 2 = some (-1) ∧
      ⌈((-5 : Int) : ℚ) / ((2 : Int) : ℚ)⌉ = -2 ∧
      ∀ (w : Nat) (cx cy : Bool) (x y : Int), Signed.fits w x = true →
        Signed.fits w y = true → 0 < y →
        Signed.c_div_round_up w cx cy x y =
          some (⌈(x : ℚ) / (y : ℚ)⌉ + (if x < 0 ∧ x.tmod y ≠ 0 then 1 else 0)) := by
  refine ⟨by decide, ?_, ?_⟩
  · rw [Int.ceil_eq_iff]
    norm_num
  · intro w cx cy x y hx hy hpos
    unfold Signed.c_div_round_up
    rw [C_CC_MACRO2_eq]
    exact Signed_C_DIV_ROUND_UP_eq w x y hx hy hpos

/-- C9: for `x`, `low`, `high` of one integer type with `low <= high`,
`c_clamp(x, low, high)` lies in `[low, high]`, and it equals `x` whenever
`low <= x <= high`. -/
theorem c_clamp_in_range (cx cl ch : Bool) (x low high : Int) (h : low ≤ high) :
    low ≤ c_clamp cx cl ch x low high ∧ c_clamp cx cl ch x low high ≤ high ∧
      (low ≤ x → x ≤ high → c_clamp cx cl ch x low high = x) := by
  unfold c_clamp
  rw [C_CC_MACRO3_eq]
  unfold C_CLAMP
  refine ⟨?_, ?_, ?_⟩
  · split
    · exact h
    · split <;> omega
  · split
    · exact Int.le_refl _
    · split <;> omega
  · intro h1 h2
    rw [if_neg (by omega), if_neg (by omega)]

theorem c_clamp_in_range_witness :
    (10 : Int) ≤ c_clamp false true true 5 10 20 ∧
      c_clamp false true true 5 10 20 ≤ 20 ∧
      ((10 : Int) ≤ 5 → (5 : Int) ≤ 20 → c_clamp false true true 5 10 20 = 5) :=
  c_clamp_in_range false true true 5 10 20 (by decide)

/-- C10: for `x`, `low`, `high` of one integer type with `low > high`,
`c_clamp(x, low, high)` equals `high` when `x > high` and `low` otherwise, the
check against `high` being made first; for example `c_clamp(5, 10, 2) == 2`. -/
theorem c_clamp_low_gt_high (cx cl ch : Bool) (x low high : Int) (h : high < low) :
    c_clamp cx cl ch x low high = (if x > high then high else low) ∧
      c_clamp cx cl ch 5 10 2 = 2 := by
  unfold c_clamp
  rw [C_CC_MACRO3_eq, C_CC_MACRO3_eq]
  unfold C_CLAMP
  refine ⟨?_, by decide⟩
  by_cases hx : x > high
  · rw [if_pos hx, if_pos hx]
  · rw [if_neg hx, if_neg hx, if_pos (by omega)]

theorem c_clamp_low_gt_high_witness :
    c_clamp true false true 1 10 2 = (if (1 : Int) > 2 then 2 else 10) ∧
      c_clamp true false true 5 10 2 = 2 :=
  c_clamp_low_gt_high true false true 1 10 2 (by decide)

theorem usub_of_le (w a b : Nat) (ha : a < 2 ^ w) (hba : b ≤ a) : usub w a b = a - b := by
  unfold usub
  have e : a + 2 ^ w - b = (a - b) + 2 ^ w := by omega
  rw [e, Nat.add_mod_right, Nat.mod_eq_of_lt (by omega)]

/-- C11: for unsigned `w`-bit `a` and `b`, `c_less_by(a, b)` is `a - b` when
`a > b` and 0 otherwise, so it is the truncated difference of the two natural
numbers: the subtraction never wraps around and the result is `<= a`;
for example `c_less_by(3, 5) == 0` and `c_less_by(5, 3) == 2`. -/
theorem c_less_by_truncated (w a b : Nat) (ca cb : Bool) (ha : a < 2 ^ w)
    (_hb : b < 2 ^ w) :
    c_less_by w ca cb a b = (if a > b then a - b else 0) ∧
      c_less_by w ca cb a b = a - b ∧
      c_less_by w ca cb a b ≤ a ∧
      c_less_by 32 ca cb 3 5 = 0 ∧ c_less_by 32 ca cb 5 3 = 2 ∧
      c_less_by 64 ca cb 3 5 = 0 ∧ c_less_by 64 ca cb 5 3 = 2 := by
  have hval : c_less_by w ca cb a b = a - b := by
    unfold c_less_by
    rw [C_CC_MACRO2_eq]
    unfold C_LESS_BY
    by_cases h : a > b
    · rw [if_pos h, usub_of_le w a b ha (by omega)]
    · rw [if_neg h]
      omega
  have hex : ∀ (w2 x y : Nat), c_less_by w2 ca cb x y = C_LESS_BY w2 x y := by
    intro w2 x y
    unfold c_less_by
    rw [C_CC_MACRO2_eq]
  refine ⟨?_, hval, ?_, ?_, ?_, ?_, ?_⟩
  · rw [hval]
    split <;> omega
  · rw [hval]
    omega
  · rw [hex]; decide
  · rw [hex]; decide
  · rw [hex]; decide
  · rw [hex]; decide

theorem c_less_by_truncated_witness :
    c_less_by 32 false true 5 3 = (if 5 > 3 then 5 - 3 else 0) ∧
      c_less_by 32 false true 5 3 = 5 - 3 ∧
      c_less_by 32 false true 5 3 ≤ 5 ∧
      c_less_by 32 false true 3 5 = 0 ∧ c_less_by 32 false true 5 3 = 2 ∧
      c_less_by 64 false true 3 5 = 0 ∧ c_less_by 64 false true 5 3 = 2 :=
  c_less_by_truncated 32 5 3 false true (by decide) (by decide)

/-- C12: for integers `a` and `b` of one type, `c_max(a, b) >= a`,
`c_max(a, b) >= b`, and `c_max(a, b)` is `a` or `b`. -/
theorem c_max_spec (ca cb : Bool) (a b : Int) :
    a ≤ c_max ca cb a b ∧ b ≤ c_max ca cb a b ∧
      (c_max ca cb a b = a ∨ c_max ca cb a b = b) := by
  unfold c_max
  rw [C_CC_MACRO2_eq]
  unfold C_MAX
  by_cases h : a > b
  · rw [if_pos h]
    exact ⟨Int.le_refl _, by omega, Or.inl rfl⟩
  · rw [if_neg h]
    exact ⟨by omega, Int.le_refl _, Or.inr rfl⟩

/-- C13: for integers `a` and `b` of one type, `c_min(a, b) <= a`,
`c_min(a, b) <= b`, and `c_min(a, b)` is `a` or `b`. -/
theorem c_min_spec (ca cb : Bool) (a b : Int) :
    c_min ca cb a b ≤ a ∧ c_min ca cb a b ≤ b ∧
      (c_min ca cb a b = a ∨ c_min ca cb a b = b) := by
  unfold c_min
  rw [C_CC_MACRO2_eq]
  unfold C_MIN
  by_cases h : a < b
  · rw [if_pos h]
    exact ⟨Int.le_refl _, by omega, Or.inl rfl⟩
  · rw [if_neg h]
    exact ⟨by omega, Int.le_refl _, Or.inr rfl⟩

/-- On the single-evaluation path of `C_CC_MACRO2`, a body that only reads its
two variables is applied to the values of the operands, each evaluated once. -/
theorem Eff_C_CC_MACRO2_single {σ α β γ : Type}
    (call : Eff.Expr σ α → Eff.Expr σ β → Eff.Expr σ γ) (f : α → β → γ)
    (hpure : ∀ a b s, call (Eff.ret a) (Eff.ret b) s = (f a b, s))
    (cx cy : Bool) (h : (cx && cy) = false) (x : Eff.Expr σ α) (y : Eff.Expr σ β)
    (s : σ) :
    Eff.C_CC_MACRO2 call cx cy x y s =
      (f (Eff.once2 x y s).1 (Eff.once2 x y s).2.1, (Eff.once2 x y s).2.2) := by
  unfold Eff.C_CC_MACRO2 C_CC_IF
  rw [h]
  simp [hpure, Eff.once2]

/-- The three-operand form of `Eff_C_CC_MACRO2_single`. -/
theorem Eff_C_CC_MACRO3_single {σ α β γ δ : Type}
    (call : Eff.Expr σ α → Eff.Expr σ β → Eff.Expr σ γ → Eff.Expr σ δ)
    (f : α → β → γ → δ)
    (hpure : ∀ a b c s, call (Eff.ret a) (Eff.ret b) (Eff.ret c) s = (f a b c, s))
    (cx cy cz : Bool) (h : (cx && cy && cz) = false) (x : Eff.Expr σ α)
    (y : Eff.Expr σ β) (z : Eff.Expr σ γ) (s : σ) :
    Eff.C_CC_MACRO3 call cx cy cz x y z s =
      (f (Eff.once3 x y z s).1 (Eff.once3 x y z s).2.1 (Eff.once3 x y z s).2.2.1,
        (Eff.once3 x y z s).2.2.2) := by
  unfold Eff.C_CC_MACRO3 C_CC_IF
  rw [h]
  simp [hpure, Eff.once3]

theorem Eff_C_MAX_ret {σ : Type} (a b : Int) (s : σ) :
    Eff.C_MAX (Eff.ret a) (Eff.ret b) s = (C_MAX a b, s) := by
  unfold Eff.C_MAX C_MAX Eff.ret
  by_cases h : a > b <;> simp [h]

theorem Eff_C_MIN_ret {σ : Type} (a b : Int) (s : σ) :
    Eff.C_MIN (Eff.ret a) (Eff.ret b) s = (C_MIN a b, s) := by
  unfold Eff.C_MIN C_MIN Eff.ret
  by_cases h : a < b <;> simp [h]

theorem Eff_C_LESS_BY_ret {σ : Type} (w a b : Nat) (s : σ) :
    Eff.C_LESS_BY w (Eff.ret a) (Eff.ret b) s = (C_LESS_BY w a b, s) := by
  unfold Eff.C_LESS_BY C_LESS_BY Eff.ret
  by_cases h : a > b <;> simp [h]

theorem Eff_C_ALIGN_TO_ret {σ : Type} (w a b : Nat) (s : σ) :
    Eff.C_ALIGN_TO w (Eff.ret a) (Eff.ret b) s = (C_ALIGN_TO w a b, s) := by
  unfold Eff.C_ALIGN_TO C_ALIGN_TO Eff.ret
  rfl

theorem Eff_C_DIV_ROUND_UP_ret {σ : Type} (w a b : Nat) (s : σ) :
    Eff.C_DIV_ROUND_UP w (Eff.ret a) (Eff.ret b) s = (C_DIV_ROUND_UP w a b, s) := by
  unfold Eff.C_DIV_ROUND_UP C_DIV_ROUND_UP Eff.ret
  rfl

theorem Eff_C_CLAMP_ret {σ : Type} (x low high : Int) (s : σ) :
    Eff.C_CLAMP (Eff.ret x) (Eff.ret low) (Eff.ret high) s = (C_CLAMP x low high, s) := by
  unfold Eff.C_CLAMP C_CLAMP Eff.ret
  by_cases h : x > high
  · simp [h]
  · by_cases h2 : x < low <;> simp [h, h2]

/-- C14: on the single-evaluation path (not all operands are compile-time
constants) each of `c_max`, `c_min`, `c_less_by`, `c_align_to`, `c_div_round_up`
and `c_clamp` evaluates every operand expression exactly once, in order, and
yields the bare formula `C_MAX`, `C_MIN`, `C_LESS_BY`, `C_ALIGN_TO`,
`C_DIV_ROUND_UP`, `C_CLAMP` applied to the operand values, although the formula
itself refers to an operand twice: `C_MAX` expanded on the operand expressions
evaluates the selected operand a second time. -/
theorem single_evaluation {σ : Type} (w : Nat) (cx cy c1 c2 c3 : Bool)
    (hxy : (cx && cy) = false) (hxyz : (c1 && c2 && c3) = false)
    (a b c : Eff.Expr σ Int) (m n : Eff.Expr σ Nat) (s : σ) :
    Eff.c_max cx cy a b s =
        (C_MAX (Eff.once2 a b s).1 (Eff.once2 a b s).2.1, (Eff.once2 a b s).2.2) ∧
      Eff.c_min cx cy a b s =
        (C_MIN (Eff.once2 a b s).1 (Eff.once2 a b s).2.1, (Eff.once2 a b s).2.2) ∧
      Eff.c_less_by w cx cy m n s =
        (C_LESS_BY w (Eff.once2 m n s).1 (Eff.once2 m n s).2.1, (Eff.once2 m n s).2.2) ∧
      Eff.c_align_to w cx cy m n s =
        (C_ALIGN_TO w (Eff.once2 m n s).1 (Eff.once2 m n s).2.1, (Eff.once2 m n s).2.2) ∧
      Eff.c_div_round_up w cx cy m n s =
        (C_DIV_ROUND_UP w (Eff.once2 m n s).1 (Eff.once2 m n s).2.1,
          (Eff.once2 m n s).2.2) ∧
      Eff.c_clamp c1 c2 c3 a b c s =
        (C_CLAMP (Eff.once3 a b c s).1 (Eff.once3 a b c s).2.1 (Eff.once3 a b c s).2.2.1,
          (Eff.once3 a b c s).2.2.2) ∧
      Eff.C_MAX (Eff.observed 0 3) (Eff.observed 1 7) [] = (7, [0, 1, 1]) := by
  refine ⟨?_, ?_, ?_, ?_, ?_, ?_, by decide⟩
  · exact Eff_C_CC_MACRO2_single Eff.C_MAX C_MAX Eff_C_MAX_ret cx cy hxy a b s
  · exact Eff_C_CC_MACRO2_single Eff.C_MIN C_MIN Eff_C_MIN_ret cx cy hxy a b s
  · exact Eff_C_CC_MACRO2_single (Eff.C_LESS_BY w) (C_LESS_BY w) (Eff_C_LESS_BY_ret w)
      cx cy hxy m n s
  · exact Eff_C_CC_MACRO2_single (Eff.C_ALIGN_TO w) (C_ALIGN_TO w) (Eff_C_ALIGN_TO_ret w)
      cx cy hxy m n s
  · exact Eff_C_CC_MACRO2_single (Eff.C_DIV_ROUND_UP w) (C_DIV_ROUND_UP w)
      (Eff_C_DIV_ROUND_UP_ret w) cx cy hxy m n s
  · exact Eff_C_CC_MACRO3_single Eff.C_CLAMP C_CLAMP Eff_C_CLAMP_ret c1 c2 c3 hxyz a b c s

theorem single_evaluation_witness :
    Eff.c_max false true (Eff.observed 0 3) (Eff.observed 1 5) [] = (5, [0, 1]) ∧
      Eff.c_min false true (Eff.observed 0 3) (Eff.observed 1 5) [] = (3, [0, 1]) ∧
      Eff.c_less_by 32 false true (Eff.observed 3 13) (Eff.observed 4 8) [] =
        (5, [3, 4]) ∧
      Eff.c_align_to 32 false true (Eff.observed 3 13) (Eff.observed 4 8) [] =
        (16, [3, 4]) ∧
      Eff.c_div_round_up 32 false true (Eff.observed 3 13) (Eff.observed 4 8) [] =
        (some 2, [3, 4]) ∧
      Eff.c_clamp true false true (Eff.observed 0 3) (Eff.observed 1 5)
          (Eff.observed 2 7) [] = (5, [0, 1, 2]) ∧
      Eff.C_MAX (Eff.observed 0 3) (Eff.observed 1 7) [] = (7, [0, 1, 1]) :=
  single_evaluation 32 false true true false true rfl rfl (Eff.observed 0 3)
    (Eff.observed 1 5) (Eff.observed 2 7) (Eff.observed 3 13) (Eff.observed 4 8) []

/-- The printed length of a value below `10 ^ e` in magnitude: at most `e` digits
and a sign. -/
theorem decimal_length_le (x : Int) (e : Nat) (he : 0 < e) (h : x.natAbs < 10 ^ e) :
    (decimal x).length ≤ 1 + e := by
  cases x with
  | ofNat m =>
    have := Nat.repr_length m e he (by simpa using h)
    show (Nat.repr m).length ≤ 1 + e
    omega
  | negSucc m =>
    have := Nat.repr_length (m + 1) e he (by simpa using h)
    show ("-" ++ Nat.repr (m + 1)).length ≤ 1 + e
    rw [String.length_append]
    have h1 : "-".length = 1 := by decide
    omega

/-- C15: for every integer type of size 1, 2, 4 or 8 bytes, signed or unsigned,
and every value of that type, the decimal representation of the value, with a
leading `-` for a negative value and without a terminating zero byte, has at
most `C_DECIMAL_MAX(type)` characters. -/
theorem decimal_length_le_C_DECIMAL_MAX (t : IntType) (x : Int)
    (hsize : t.size = 1 ∨ t.size = 2 ∨ t.size = 4 ∨ t.size = 8)
    (hx : t.holds x = true) :
    ∃ n, C_DECIMAL_MAX t = some n ∧ (decimal x).length ≤ n := by
  obtain ⟨size, sgn⟩ := t
  simp only at hsize
  rcases hsize with h | h | h | h <;> subst h
  · refine ⟨1 + 3, ?_, decimal_length_le x 3 (by decide) ?_⟩
    · show C_INTERNAL_DECIMAL_MAX 1 = some (1 + 3)
      decide
    · cases sgn <;> simp [IntType.holds] at hx <;> omega
  · refine ⟨1 + 5, ?_, decimal_length_le x 5 (by decide) ?_⟩
    · show C_INTERNAL_DECIMAL_MAX 2 = some (1 + 5)
      decide
    · cases sgn <;> simp [IntType.holds] at hx <;> omega
  · refine ⟨1 + 10, ?_, decimal_length_le x 10 (by decide) ?_⟩
    · show C_INTERNAL_DECIMAL_MAX 4 = some (1 + 10)
      decide
    · cases sgn <;> simp [IntType.holds] at hx <;> omega
  · refine ⟨1 + 20, ?_, decimal_length_le x 20 (by decide) ?_⟩
    · show C_INTERNAL_DECIMAL_MAX 8 = some (1 + 20)
      decide
    · cases sgn <;> simp [IntType.holds] at hx <;> omega

theorem decimal_length_le_C_DECIMAL_MAX_witness :
    ∃ n, C_DECIMAL_MAX (IntType.mk 4 true) = some n ∧
      (decimal (-2147483648)).length ≤ n :=
  decimal_length_le_C_DECIMAL_MAX (IntType.mk 4 true) (-2147483648)
    (Or.inr (Or.inr (Or.inl rfl))) (by decide)

/-- C16: the value of `C_DECIMAL_MAX` depends only on the byte size of the type:
it is 4 for a 1-byte type, 6 for a 2-byte type, 11 for a 4-byte type and 21 for
an 8-byte type, for signed and unsigned types alike. -/
theorem C_DECIMAL_MAX_table :
    (∀ t u : IntType, t.size = u.size → C_DECIMAL_MAX t = C_DECIMAL_MAX u) ∧
      ∀ sgn : Bool, C_DECIMAL_MAX (IntType.mk 1 sgn) = some 4 ∧
        C_DECIMAL_MAX (IntType.mk 2 sgn) = some 6 ∧
        C_DECIMAL_MAX (IntType.mk 4 sgn) = some 11 ∧
        C_DECIMAL_MAX (IntType.mk 8 sgn) = some 21 := by
  constructor
  · intro t u h
    unfold C_DECIMAL_MAX
    rw [h]
  · intro sgn
    refine ⟨?_, ?_, ?_, ?_⟩
    · show C_INTERNAL_DECIMAL_MAX 1 = some 4
      decide
    · show C_INTERNAL_DECIMAL_MAX 2 = some 6
      decide
    · show C_INTERNAL_DECIMAL_MAX 4 = some 11
      decide
    · show C_INTERNAL_DECIMAL_MAX 8 = some 21
      decide

theorem c_clz_log2 (w v : Nat) (hv0 : v ≠ 0) (hv : v < 2 ^ w) :
    c_clz w v = some (w - 1 - Nat.log2 v) := by
  have hj : v.log2 < w := (Nat.log2_lt hv0).mpr hv
  unfold c_clz builtin_clz
  rw [if_neg hv0, clzAux_eq v v.log2 (Nat.log2_self_le hv0) Nat.lt_log2_self w hj]

/-- C17: `c_clz` counts the leading zeroes within the width `w` of its operand
type: for every non-zero unsigned `w`-bit `v`, `c_clz(v) = w - 1 - floor(log2 v)`;
the value 1 yields 31 as a 32-bit operand and 63 as a 64-bit operand, and for
every non-zero `u < 2 ^ 32` the 64-bit count is the 32-bit count plus 32. -/
theorem c_clz_width_relative (w v : Nat) (hv0 : v ≠ 0) (hv : v < 2 ^ w) :
    c_clz w v = some (w - 1 - Nat.log2 v) ∧
      c_clz 32 1 = some 31 ∧ c_clz 64 1 = some 63 ∧
      ∀ u : Nat, u ≠ 0 → u < 2 ^ 32 →
        ∃ n, c_clz 32 u = some n ∧ c_clz 64 u = some (n + 32) := by
  refine ⟨c_clz_log2 w v hv0 hv, by decide, by decide, ?_⟩
  intro u hu0 hu
  have hl : u.log2 < 32 := (Nat.log2_lt hu0).mpr hu
  have hu64 : u < 2 ^ 64 := Nat.lt_trans hu (by decide)
  refine ⟨32 - 1 - u.log2, c_clz_log2 32 u hu0 hu, ?_⟩
  rw [c_clz_log2 64 u hu0 hu64]
  congr 1
  omega

theorem c_clz_width_relative_witness :
    c_clz 32 40 = some (32 - 1 - Nat.log2 40) ∧
      c_clz 32 1 = some 31 ∧ c_clz 64 1 = some 63 ∧
      ∀ u : Nat, u ≠ 0 → u < 2 ^ 32 →
        ∃ n, c_clz 32 u = some n ∧ c_clz 64 u = some (n + 32) :=
  c_clz_width_relative 32 40 (by decide) (by decide)

/-- C18 (amended): `C_ARRAY_SIZE` applied to an array of `n` elements whose
element type has non-zero size yields `n`, which is
`sizeof(array) / sizeof(element)` (for an element type of size zero the
division is by zero and there is no value); applied to a pointer to the same
element type it yields no value, the compile-time assertion on
`C_TYPE_IS_ARRAY` failing; `C_TYPE_IS_ARRAY` is 1 for every array type and 0
for every pointer type. -/
theorem C_ARRAY_SIZE_spec (ptrSize : Nat) (e : CType) (n : Nat) :
    (0 < sizeof ptrSize e →
        C_ARRAY_SIZE ptrSize (CType.array e n) = some n ∧
          sizeof ptrSize (CType.array e n) / sizeof ptrSize e = n) ∧
      (sizeof ptrSize e = 0 → C_ARRAY_SIZE ptrSize (CType.array e n) = none) ∧
      C_ARRAY_SIZE ptrSize (CType.ptr e) = none ∧
      (∃ c, C_TYPE_IS_ARRAY (CType.ptr e) = some c ∧ C_CC_ASSERT1 (c != 0) = none) ∧
      C_TYPE_IS_ARRAY (CType.array e n) = some 1 ∧
      C_TYPE_IS_ARRAY (CType.ptr e) = some 0 := by
  have harr : C_TYPE_IS_ARRAY (CType.array e n) = some 1 := by
    simp [C_TYPE_IS_ARRAY, subscript0, C_TYPE_MATCH, lnot]
  have hptr : C_TYPE_IS_ARRAY (CType.ptr e) = some 0 := by
    simp [C_TYPE_IS_ARRAY, subscript0, C_TYPE_MATCH, lnot]
  refine ⟨?_, ?_, ?_, ⟨0, hptr, by decide⟩, harr, hptr⟩
  · intro hsz
    have hdiv : sizeof ptrSize (CType.array e n) / sizeof ptrSize e = n := by
      show n * sizeof ptrSize e / sizeof ptrSize e = n
      exact Nat.mul_div_cancel n hsz
    have hne : sizeof ptrSize e ≠ 0 := by omega
    refine ⟨?_, hdiv⟩
    unfold C_ARRAY_SIZE
    rw [harr]
    simp [subscript0, C_CC_ASSERT_TO, C_CC_ASSERT1, C_CC_ASSERT1_MSG, C_CC_IF, udiv, hne,
      hdiv]
  · intro hz
    unfold C_ARRAY_SIZE
    rw [harr]
    simp [subscript0, C_CC_ASSERT_TO, C_CC_ASSERT1, C_CC_ASSERT1_MSG, C_CC_IF, udiv, hz]
  · unfold C_ARRAY_SIZE
    rw [hptr]
    simp [subscript0, C_CC_ASSERT_TO, C_CC_ASSERT1, C_CC_ASSERT1_MSG]

theorem C_ARRAY_SIZE_spec_witness :
    C_ARRAY_SIZE 8 (CType.array (CType.int (IntType.mk 4 true)) 10) = some 10 ∧
      sizeof 8 (CType.array (CType.int (IntType.mk 4 true)) 10) /
        sizeof 8 (CType.int (IntType.mk 4 true)) = 10 :=
  (C_ARRAY_SIZE_spec 8 (CType.int (IntType.mk 4 true)) 10).1 (by decide)

/-- C18 (counterexample): for the array `int e[5][0]` of 5 elements of the
zero-length array type `int[0]`, whose size is 0, `C_TYPE_IS_ARRAY` is 1 but
`sizeof(e) / sizeof(e[0])` divides by zero, so `C_ARRAY_SIZE` does not yield 5. -/
theorem C_ARRAY_SIZE_spec_counterexample :
    C_TYPE_IS_ARRAY (CType.array (CType.array (CType.int (IntType.mk 4 true)) 0) 5) =
        some 1 ∧
      sizeof 8 (CType.array (CType.int (IntType.mk 4 true)) 0) = 0 ∧
      C_ARRAY_SIZE 8 (CType.array (CType.array (CType.int (IntType.mk 4 true)) 0) 5) =
        none ∧
      ¬ (C_ARRAY_SIZE 8 (CType.array (CType.array (CType.int (IntType.mk 4 true)) 0) 5) =
        some 5) := by
  decide

/-- C19: with pointers as addresses, `c_container_of(NULL, type, member)` is
`NULL`, and for a container at the non-null address `base` and a member at byte
offset `off` within it, `c_container_of(base + off, type, member) == base`. -/
theorem c_container_of_spec {σ : Type} (w base off : Nat) (s : σ) (hbase : base ≠ 0)
    (hfit : base + off < 2 ^ w) :
    Eff.c_container_of w (Eff.ret 0) off s = (0, s) ∧
      Eff.c_container_of w (Eff.ret (base + off)) off s = (base, s) := by
  constructor
  · simp [Eff.c_container_of, Eff.ret]
  · have hne : base + off ≠ 0 := by omega
    have hsub : usub w (base + off) off = base := by
      rw [usub_of_le w (base + off) off hfit (by omega)]
      omega
    simp [Eff.c_container_of, Eff.ret, hne, hsub]

theorem c_container_of_spec_witness :
    Eff.c_container_of 64 (Eff.ret 0) 8 () = (0, ()) ∧
      Eff.c_container_of 64 (Eff.ret (4096 + 8)) 8 () = (4096, ()) :=
  c_container_of_spec 64 4096 8 () (by decide) (by decide)

/-- C20 (the code at the failing input): `c_container_of` evaluates its pointer
operand twice, once to initialise the local variable and once more as the
condition of `?:`; an operand that records its evaluation is recorded twice. -/
theorem c_container_of_evaluates_twice :
    Eff.c_container_of 64 (Eff.observed 0 (4096 + 8)) 8 [] = (4096, [0, 0]) ∧
      ∀ (σ : Type) (w off : Nat) (ptr : Eff.Expr σ Nat) (s : σ),
        (Eff.c_container_of w ptr off s).2 = (ptr (ptr s).2).2 := by
  refine ⟨by decide, ?_⟩
  intro σ w off ptr s
  rfl

theorem usub_one_ne_zero (w val : Nat) (hw : 0 < w) (hv : val < 2 ^ w) (hne : val ≠ 1) :
    usub w val 1 ≠ 0 := by
  have h2 : 2 ≤ 2 ^ w := by
    calc 2 = 2 ^ 1 := rfl
      _ ≤ 2 ^ w := Nat.pow_le_pow_right (by decide) hw
  by_cases h0 : val = 0
  · subst h0
    unfold usub
    rw [Nat.zero_add, Nat.mod_eq_of_lt (by omega)]
    omega
  · rw [usub_one_of_pos w val (by omega) hv]
    omega

/-- C21: for every unsigned `w`-bit `val`, `c_align_power2` computes its result
without an undefined operation: `c_clz(val - 1)` is evaluated only when
`val != 1`, and then on a non-zero argument; the shift is evaluated only when
`c_clz(val - 1) >= 1`, and its amount `w - c_clz(val - 1)` lies in `[1, w - 1]`. -/
theorem c_align_power2_ops_safe (w val : Nat) (hw : 0 < w) (hv : val < 2 ^ w) :
    (c_align_power2_ops w val).2 = c_align_power2 w val ∧
      (∀ a, Op.clz a ∈ (c_align_power2_ops w val).1 →
        val ≠ 1 ∧ a = usub w val 1 ∧ a ≠ 0) ∧
      (∀ s, Op.shl s ∈ (c_align_power2_ops w val).1 →
        1 ≤ s ∧ s ≤ w - 1 ∧
          ∃ z, c_clz w (usub w val 1) = some z ∧ 1 ≤ z ∧ s = w - z) := by
  by_cases hone : val = 1
  · subst hone
    simp [c_align_power2_ops, c_align_power2]
  · have hne0 := usub_one_ne_zero w val hw hv hone
    have hlt := usub_lt w val 1
    have hc := c_clz_log2 w (usub w val 1) hne0 hlt
    have hlog : (usub w val 1).log2 < w := (Nat.log2_lt hne0).mpr hlt
    by_cases hz : w - 1 - (usub w val 1).log2 < 1
    · simp [c_align_power2_ops, c_align_power2, hone, hc, hz, hne0]
    · simp only [c_align_power2_ops, c_align_power2, hone, hc, hz, if_false]
      refine ⟨trivial, ?_, ?_⟩
      · intro a ha
        simp at ha
        subst ha
        exact ⟨hone, rfl, hne0⟩
      · intro s hs
        simp at hs
        subst hs
        exact ⟨by omega, by omega, _, rfl, by omega, rfl⟩

theorem c_align_power2_ops_safe_witness :
    (c_align_power2_ops 32 5).2 = c_align_power2 32 5 ∧
      (∀ a, Op.clz a ∈ (c_align_power2_ops 32 5).1 →
        5 ≠ 1 ∧ a = usub 32 5 1 ∧ a ≠ 0) ∧
      (∀ s, Op.shl s ∈ (c_align_power2_ops 32 5).1 →
        1 ≤ s ∧ s ≤ 32 - 1 ∧
          ∃ z, c_clz 32 (usub 32 5 1) = some z ∧ 1 ≤ z ∧ s = 32 - z) :=
  c_align_power2_ops_safe 32 5 (by decide) (by decide)

/-- The quotient plus the rounding bit is the quotient of `x + y - 1`, in exact
arithmetic. -/
theorem div_add_notnot_eq (x y : Nat) (hpos : 0 < y) :
    x / y + notnot (x % y) = (x + y - 1) / y := by
  obtain ⟨hb1, hb2, _⟩ := div_round_up_bounds x y hpos
  symm
  apply Nat.div_eq_of_lt_le
  · omega
  · rw [Nat.add_mul, Nat.one_mul]
    omega

theorem C_DIV_ROUND_UP_eq_sum (w x y : Nat) (hx : x < 2 ^ w) (hpos : 0 < y) :
    C_DIV_ROUND_UP w x y = some ((x + y - 1) / y) := by
  obtain ⟨_, _, hb3⟩ := div_round_up_bounds x y hpos
  have hy0 : y ≠ 0 := by omega
  have hfit : x / y + notnot (x % y) < 2 ^ w := by omega
  simp only [C_DIV_ROUND_UP, udiv, umod, hy0, if_false, uadd, Nat.mod_eq_of_lt hfit]
  rw [div_add_notnot_eq x y hpos]

/-- The value of `val + to - 1` in the `w`-bit type when the sum does not wrap. -/
theorem usub_uadd_one_of_fit (w a b : Nat) (hb : 0 < b) (hfit : a + b - 1 < 2 ^ w) :
    usub w (uadd w a b) 1 = a + b - 1 := by
  have hp := two_pow_pos_aux w
  rw [usub_uadd_one]
  have e : a + b + (2 ^ w - 1) = (a + b - 1) + 2 ^ w := by omega
  rw [e, Nat.add_mod_right, Nat.mod_eq_of_lt hfit]

/-- C22: for unsigned `w`-bit `x` and `y` with `y > 0` such that `x + y - 1` does
not exceed the maximum of the type, `c_div_round_up(x, y)` equals
`(x + y - 1) / y`, also when that formula is evaluated in the `w`-bit type; for
`x = UINT_MAX` and `y = 2` the `w`-bit formula `(x + y - 1) / y` wraps to 0 and
differs from `c_div_round_up(x, y)`, which is the exact ceiling `2 ^ (w - 1)`
(shown for `w = 32` and `w = 64`). -/
theorem c_div_round_up_eq_sum_formula (w x y : Nat) (cx cy : Bool) (hx : x < 2 ^ w)
    (_hy : y < 2 ^ w) (hpos : 0 < y) (hfit : x + y - 1 < 2 ^ w) :
    c_div_round_up w cx cy x y = some ((x + y - 1) / y) ∧
      c_div_round_up w cx cy x y = div_round_up_by_sum w x y ∧
      (div_round_up_by_sum 32 (2 ^ 32 - 1) 2 = some 0 ∧
        c_div_round_up 32 cx cy (2 ^ 32 - 1) 2 = some (2 ^ 31) ∧
        ⌈((2 ^ 32 - 1 : Int) : ℚ) / ((2 : Int) : ℚ)⌉ = 2 ^ 31) ∧
      (div_round_up_by_sum 64 (2 ^ 64 - 1) 2 = some 0 ∧
        c_div_round_up 64 cx cy (2 ^ 64 - 1) 2 = some (2 ^ 63) ∧
        ⌈((2 ^ 64 - 1 : Int) : ℚ) / ((2 : Int) : ℚ)⌉ = 2 ^ 63) := by
  have hy0 : y ≠ 0 := by omega
  have hval : c_div_round_up w cx cy x y = some ((x + y - 1) / y) := by
    unfold c_div_round_up
    rw [C_CC_MACRO2_eq]
    exact C_DIV_ROUND_UP_eq_sum w x y hx hpos
  have hsum : div_round_up_by_sum w x y = some ((x + y - 1) / y) := by
    unfold div_round_up_by_sum
    rw [usub_uadd_one_of_fit w x y hpos hfit]
    simp [udiv, hy0]
  have hex : ∀ (w2 a b : Nat), c_div_round_up w2 cx cy a b = C_DIV_ROUND_UP w2 a b := by
    intro w2 a b
    unfold c_div_round_up
    rw [C_CC_MACRO2_eq]
  refine ⟨hval, by rw [hval, hsum], ⟨by decide, ?_, ?_⟩, ⟨by decide, ?_, ?_⟩⟩
  · rw [hex]; decide
  · exact ceil_div_eq _ _ _ (by decide) (by decide) (by decide)
  · rw [hex]; decide
  · exact ceil_div_eq _ _ _ (by decide) (by decide) (by decide)

theorem c_div_round_up_eq_sum_formula_witness :
    c_div_round_up 32 false true 7 2 = some ((7 + 2 - 1) / 2) ∧
      c_div_round_up 32 false true 7 2 = div_round_up_by_sum 32 7 2 ∧
      (div_round_up_by_sum 32 (2 ^ 32 - 1) 2 = some 0 ∧
        c_div_round_up 32 false true (2 ^ 32 - 1) 2 = some (2 ^ 31) ∧
        ⌈((2 ^ 32 - 1 : Int) : ℚ) / ((2 : Int) : ℚ)⌉ = 2 ^ 31) ∧
      (div_round_up_by_sum 64 (2 ^ 64 - 1) 2 = some 0 ∧
        c_div_round_up 64 false true (2 ^ 64 - 1) 2 = some (2 ^ 63) ∧
        ⌈((2 ^ 64 - 1 : Int) : ℚ) / ((2 : Int) : ℚ)⌉ = 2 ^ 63) :=
  c_div_round_up_eq_sum_formula 32 7 2 false true (by decide) (by decide) (by decide)
    (by decide)

/-- C23: for an unsigned `w`-bit `val` and a power of two `to = 2 ^ k` of the same
type such that `val + to - 1` does not exceed the maximum of the type,
`c_align_to(val, to) == to * c_div_round_up(val, to)`, the product being
computed in the `w`-bit type, where it does not wrap. -/
theorem c_align_to_eq_mul_div_round_up (w k val : Nat) (cv ct : Bool) (hk : k < w)
    (hv : val < 2 ^ w) (hfit : val + 2 ^ k - 1 < 2 ^ w) :
    ∃ q, c_div_round_up w cv ct val (2 ^ k) = some q ∧
      c_align_to w cv ct val (2 ^ k) = umul w (2 ^ k) q ∧
      umul w (2 ^ k) q = 2 ^ k * q := by
  have hp := two_pow_pos_aux k
  have hmul : 2 ^ k * ((val + 2 ^ k - 1) / 2 ^ k) < 2 ^ w :=
    Nat.lt_of_le_of_lt (Nat.mul_div_le _ _) hfit
  have hu : umul w (2 ^ k) ((val + 2 ^ k - 1) / 2 ^ k) =
      2 ^ k * ((val + 2 ^ k - 1) / 2 ^ k) := by
    unfold umul
    exact Nat.mod_eq_of_lt hmul
  refine ⟨(val + 2 ^ k - 1) / 2 ^ k, ?_, ?_, hu⟩
  · unfold c_div_round_up
    rw [C_CC_MACRO2_eq]
    exact C_DIV_ROUND_UP_eq_sum w val (2 ^ k) hv hp
  · rw [hu]
    unfold c_align_to
    rw [C_CC_MACRO2_eq, C_ALIGN_TO_pow w k val hk]
    have e : val + 2 ^ k + (2 ^ w - 1) = (val + 2 ^ k - 1) + 2 ^ w := by omega
    rw [e, Nat.add_mod_right, Nat.mod_eq_of_lt hfit]

theorem c_align_to_eq_mul_div_round_up_witness :
    ∃ q, c_div_round_up 32 false true 13 (2 ^ 3) = some q ∧
      c_align_to 32 false true 13 (2 ^ 3) = umul 32 (2 ^ 3) q ∧
      umul 32 (2 ^ 3) q = 2 ^ 3 * q :=
  c_align_to_eq_mul_div_round_up 32 3 13 false true (by decide) (by decide) (by decide)

/-- A mask computed in a `w`-bit type only sees the low `w` bits of the other
operand of `&`. -/
theorem uand_unot_mod (w x m : Nat) (hm : m < 2 ^ w) :
    uand x (unot w m) = uand (x % 2 ^ w) (unot w m) := by
  apply Nat.eq_of_testBit_eq
  intro i
  rw [testBit_uand_unot w x m i hm, testBit_uand_unot w _ m i hm, Nat.testBit_mod_two_pow]
  by_cases hi : i < w <;> simp [hi]

/-- The value of `C_ALIGN_TO` for a `wv`-bit `val` and a power of two of a
narrower or equal `wt`-bit type: the low `wt` bits of the sum, rounded down to
a multiple of the power of two. -/
theorem Mixed_C_ALIGN_TO_pow (wv wt k val : Nat) (hwt : wt ≤ wv) (hk : k < wt) :
    Mixed.C_ALIGN_TO wv wt val (2 ^ k) =
      2 ^ k * ((val + 2 ^ k + (2 ^ wv - 1)) % 2 ^ wv % 2 ^ wt / 2 ^ k) := by
  have hkw : 2 ^ k < 2 ^ wt := Nat.pow_lt_pow_right (by decide) hk
  have hp := two_pow_pos_aux k
  unfold Mixed.C_ALIGN_TO
  simp only [Nat.max_eq_left hwt]
  rw [usub_one_of_pos wt (2 ^ k) hp hkw, usub_uadd_one,
    uand_unot_mod wt _ (2 ^ k - 1) (by omega),
    uand_unot_pow wt k _ (Nat.le_of_lt hk) (Nat.mod_lt _ (two_pow_pos_aux wt))]

/-- A multiple of `2 ^ k` below `2 ^ w` is at most `2 ^ w - 2 ^ k`. -/
theorem mul_div_le_sub (w k y : Nat) (hk : k ≤ w) (hy : y < 2 ^ w) :
    2 ^ k * (y / 2 ^ k) + 2 ^ k ≤ 2 ^ w := by
  have hp := two_pow_pos_aux k
  have hsplit : 2 ^ w = 2 ^ (w - k) * 2 ^ k := by
    rw [← Nat.pow_add]
    congr 1
    omega
  have hq : y / 2 ^ k < 2 ^ (w - k) := by
    rw [Nat.div_lt_iff_lt_mul hp, ← hsplit]
    exact hy
  have hmul : 2 ^ k * (y / 2 ^ k + 1) ≤ 2 ^ k * 2 ^ (w - k) :=
    Nat.mul_le_mul_left _ hq
  rw [Nat.mul_add, Nat.mul_one, Nat.mul_comm (2 ^ k) (2 ^ (w - k)), ← hsplit] at hmul
  exact hmul

/-- C24: for a 64-bit unsigned `val` and a 32-bit unsigned power of two
`to = 2 ^ k`, the mask `~(to - 1)` is computed in 32 bits and zero-extended, so
`c_align_to(val, to)` is `((val + to - 1) mod 2 ^ 64) & (2 ^ 32 - to)`, which is
below `2 ^ 32`; for every `val > 2 ^ 32 - to` the result is below `val` and so is
not `val` rounded up to the next multiple of `to`; for example
`c_align_to(2 ^ 32, 8u) == 0`. -/
theorem c_align_to_mixed_width (k val : Nat) (cv ct : Bool) (hk : k < 32)
    (hv : val < 2 ^ 64) :
    Mixed.c_align_to 64 32 cv ct val (2 ^ k) =
        ((val + 2 ^ k - 1) % 2 ^ 64) &&& (2 ^ 32 - 2 ^ k) ∧
      Mixed.c_align_to 64 32 cv ct val (2 ^ k) < 2 ^ 32 ∧
      (2 ^ 32 - 2 ^ k < val →
        Mixed.c_align_to 64 32 cv ct val (2 ^ k) < val ∧
          ¬ (2 ^ k ∣ Mixed.c_align_to 64 32 cv ct val (2 ^ k) ∧
            val ≤ Mixed.c_align_to 64 32 cv ct val (2 ^ k) ∧
            Mixed.c_align_to 64 32 cv ct val (2 ^ k) - val < 2 ^ k)) ∧
      Mixed.c_align_to 64 32 cv ct (2 ^ 32) 8 = 0 := by
  have hp := two_pow_pos_aux k
  have hkw : 2 ^ k < 2 ^ 32 := Nat.pow_lt_pow_right (by decide) hk
  have hdef : ∀ v t : Nat, Mixed.c_align_to 64 32 cv ct v t = Mixed.C_ALIGN_TO 64 32 v t := by
    intro v t
    unfold Mixed.c_align_to
    rw [C_CC_MACRO2_eq]
  have hform : Mixed.C_ALIGN_TO 64 32 val (2 ^ k) =
      ((val + 2 ^ k - 1) % 2 ^ 64) &&& (2 ^ 32 - 2 ^ k) := by
    unfold Mixed.C_ALIGN_TO
    simp only [Nat.max_eq_left (show 32 ≤ 64 by decide)]
    rw [usub_one_of_pos 32 (2 ^ k) hp hkw, usub_uadd_one]
    have e1 : val + 2 ^ k + (2 ^ 64 - 1) = (val + 2 ^ k - 1) + 2 ^ 64 := by omega
    have e2 : unot 32 (2 ^ k - 1) = 2 ^ 32 - 2 ^ k := by
      unfold unot
      omega
    rw [e1, Nat.add_mod_right, e2]
    rfl
  have hpow := Mixed_C_ALIGN_TO_pow 64 32 k val (by decide) hk
  generalize hY : (val + 2 ^ k + (2 ^ 64 - 1)) % 2 ^ 64 % 2 ^ 32 = Y at hpow
  have hYlt : Y < 2 ^ 32 := by
    rw [← hY]
    exact Nat.mod_lt _ (by decide)
  have hle : 2 ^ k * (Y / 2 ^ k) + 2 ^ k ≤ 2 ^ 32 :=
    mul_div_le_sub 32 k Y (Nat.le_of_lt hk) hYlt
  refine ⟨by rw [hdef, hform], ?_, ?_, ?_⟩
  · rw [hdef, hpow]
    omega
  · intro hbig
    rw [hdef, hpow]
    constructor
    · omega
    · intro hcon
      omega
  · rw [hdef]
    decide

theorem c_align_to_mixed_width_witness :
    Mixed.c_align_to 64 32 false true (2 ^ 32 + 5) (2 ^ 3) =
        ((2 ^ 32 + 5 + 2 ^ 3 - 1) % 2 ^ 64) &&& (2 ^ 32 - 2 ^ 3) ∧
      Mixed.c_align_to 64 32 false true (2 ^ 32 + 5) (2 ^ 3) < 2 ^ 32 ∧
      (2 ^ 32 - 2 ^ 3 < 2 ^ 32 + 5 →
        Mixed.c_align_to 64 32 false true (2 ^ 32 + 5) (2 ^ 3) < 2 ^ 32 + 5 ∧
          ¬ (2 ^ 3 ∣ Mixed.c_align_to 64 32 false true (2 ^ 32 + 5) (2 ^ 3) ∧
            2 ^ 32 + 5 ≤ Mixed.c_align_to 64 32 false true (2 ^ 32 + 5) (2 ^ 3) ∧
            Mixed.c_align_to 64 32 false true (2 ^ 32 + 5) (2 ^ 3) - (2 ^ 32 + 5) <
              2 ^ 3)) ∧
      Mixed.c_align_to 64 32 false true (2 ^ 32) 8 = 0 :=
  c_align_to_mixed_width 3 (2 ^ 32 + 5) false true (by decide) (by decide)

/-! ## Signed operands as bit patterns -/

theorem two_pow_int_pos (w : Nat) : (0 : Int) < (2 : Int) ^ w := by positivity

theorem two_pow_int_cast (w : Nat) : (2 : Int) ^ w = ((2 ^ w : Nat) : Int) := by
  norm_cast

/-- A value and its bit pattern differ by a multiple of `2 ^ w`. -/
theorem toBits_spec (w : Nat) (x : Int) :
    ∃ k : Int, x = (Signed.toBits w x : Int) + k * (2 : Int) ^ w := by
  have hpos := two_pow_int_pos w
  have hnn : 0 ≤ x % (2 : Int) ^ w := Int.emod_nonneg x (by omega)
  refine ⟨x / (2 : Int) ^ w, ?_⟩
  unfold Signed.toBits
  rw [Int.toNat_of_nonneg hnn]
  have := Int.emod_add_ediv x ((2 : Int) ^ w)
  linear_combination -this

/-- The bit pattern is the only value below `2 ^ w` in the residue class. -/
theorem toBits_eq (w : Nat) (x : Int) (n : Nat) (k : Int) (hn : n < 2 ^ w)
    (h : x = (n : Int) + k * (2 : Int) ^ w) : Signed.toBits w x = n := by
  have hlt : (n : Int) < (2 : Int) ^ w := by
    rw [two_pow_int_cast]
    exact_mod_cast hn
  unfold Signed.toBits
  rw [h, Int.add_mul_emod_self, Int.emod_eq_of_lt (by omega) hlt]
  rfl

theorem toBits_lt (w : Nat) (x : Int) : Signed.toBits w x < 2 ^ w := by
  have hpos := two_pow_int_pos w
  have hnn : 0 ≤ x % (2 : Int) ^ w := Int.emod_nonneg x (by omega)
  have hlt : x % (2 : Int) ^ w < (2 : Int) ^ w := Int.emod_lt_of_pos x hpos
  have hc : ((Signed.toBits w x : Nat) : Int) = x % (2 : Int) ^ w := by
    unfold Signed.toBits
    exact Int.toNat_of_nonneg hnn
  rw [← hc, two_pow_int_cast] at hlt
  exact_mod_cast hlt

theorem toBits_add (w : Nat) (a b : Int) :
    Signed.toBits w (a + b) = uadd w (Signed.toBits w a) (Signed.toBits w b) := by
  obtain ⟨ka, ha⟩ := toBits_spec w a
  obtain ⟨kb, hb⟩ := toBits_spec w b
  have hnat := Nat.mod_add_div (Signed.toBits w a + Signed.toBits w b) (2 ^ w)
  have hz : (((Signed.toBits w a + Signed.toBits w b) % 2 ^ w : Nat) : Int) +
      (2 : Int) ^ w * (((Signed.toBits w a + Signed.toBits w b) / 2 ^ w : Nat) : Int) =
      (Signed.toBits w a : Int) + (Signed.toBits w b : Int) := by
    rw [two_pow_int_cast]
    exact_mod_cast hnat
  unfold uadd
  apply toBits_eq w (a + b) _
    (ka + kb + (((Signed.toBits w a + Signed.toBits w b) / 2 ^ w : Nat) : Int))
    (Nat.mod_lt _ (two_pow_pos_aux w))
  linear_combination ha + hb - hz

theorem toBits_sub_one (w : Nat) (a : Int) :
    Signed.toBits w (a - 1) = usub w (Signed.toBits w a) 1 := by
  obtain ⟨ka, ha⟩ := toBits_spec w a
  have hp := two_pow_pos_aux w
  have hnat := Nat.mod_add_div (Signed.toBits w a + 2 ^ w - 1) (2 ^ w)
  have hcast : ((Signed.toBits w a + 2 ^ w - 1 : Nat) : Int) =
      (Signed.toBits w a : Int) + (2 : Int) ^ w - 1 := by
    rw [two_pow_int_cast]
    omega
  have hz : (((Signed.toBits w a + 2 ^ w - 1) % 2 ^ w : Nat) : Int) +
      (2 : Int) ^ w * (((Signed.toBits w a + 2 ^ w - 1) / 2 ^ w : Nat) : Int) =
      (Signed.toBits w a : Int) + (2 : Int) ^ w - 1 := by
    rw [← hcast, two_pow_int_cast]
    exact_mod_cast hnat
  unfold usub
  apply toBits_eq w (a - 1) _
    (ka - 1 + (((Signed.toBits w a + 2 ^ w - 1) / 2 ^ w : Nat) : Int))
    (Nat.mod_lt _ hp)
  linear_combination ha - hz

theorem toBits_ofBits (w n : Nat) (hn : n < 2 ^ w) :
    Signed.toBits w (Signed.ofBits w n) = n := by
  unfold Signed.ofBits
  split
  · exact toBits_eq w _ n 0 hn (by ring)
  · exact toBits_eq w _ n (-1) hn (by ring)

/-- A signed value is recovered from its bit pattern. -/
theorem ofBits_toBits (w : Nat) (x : Int) (hx : Signed.fits (w + 1) x = true) :
    Signed.ofBits (w + 1) (Signed.toBits (w + 1) x) = x := by
  simp only [Signed.fits, decide_eq_true_eq, Nat.add_sub_cancel] at hx
  have hP : (2 : Int) ^ (w + 1) = 2 * (2 : Int) ^ w := by ring
  have hQ := two_pow_int_cast w
  have hPn : 2 ^ (w + 1) = 2 * 2 ^ w := by ring
  by_cases h0 : 0 ≤ x
  · have hb : Signed.toBits (w + 1) x = x.toNat :=
      toBits_eq (w + 1) x x.toNat 0 (by omega) (by omega)
    rw [hb]
    unfold Signed.ofBits
    simp only [Nat.add_sub_cancel]
    rw [if_pos (by omega)]
    omega
  · have hb : Signed.toBits (w + 1) x = (x + (2 : Int) ^ (w + 1)).toNat :=
      toBits_eq (w + 1) x _ (-1) (by omega) (by omega)
    rw [hb]
    unfold Signed.ofBits
    simp only [Nat.add_sub_cancel]
    rw [if_neg (by omega)]
    omega

theorem fits_ofBits (w n : Nat) (hn : n < 2 ^ (w + 1)) :
    Signed.fits (w + 1) (Signed.ofBits (w + 1) n) = true := by
  have hP : (2 : Int) ^ (w + 1) = 2 * (2 : Int) ^ w := by ring
  have hQ := two_pow_int_cast w
  have hPn : 2 ^ (w + 1) = 2 * 2 ^ w := by ring
  simp only [Signed.fits, decide_eq_true_eq, Nat.add_sub_cancel, Signed.ofBits]
  split <;> omega

/-- The signed `&` of a value with a signed `~`, on the bit patterns. -/
theorem sand_snot_eq (w : Nat) (val to_ : Int) :
    Signed.sand w (val + to_ - 1) (Signed.snot w (to_ - 1)) =
      Signed.ofBits w (C_ALIGN_TO w (Signed.toBits w val) (Signed.toBits w to_)) := by
  have hlt : unot w (Signed.toBits w (to_ - 1)) < 2 ^ w := by
    have := two_pow_pos_aux w
    unfold unot
    omega
  unfold Signed.sand Signed.snot C_ALIGN_TO
  rw [toBits_ofBits w _ hlt, toBits_sub_one, toBits_sub_one, toBits_add]

/-- A defined signed `C_ALIGN_TO` has the bit pattern of the unsigned one. -/
theorem Signed_C_ALIGN_TO_some (w : Nat) (val to_ r : Int)
    (h : Signed.C_ALIGN_TO w val to_ = some r) :
    Signed.fits w (to_ - 1) = true ∧
      r = Signed.ofBits w (C_ALIGN_TO w (Signed.toBits w val) (Signed.toBits w to_)) := by
  by_cases a1 : Signed.fits w (val + to_) = true
  · by_cases a2 : Signed.fits w (val + to_ - 1) = true
    · by_cases a3 : Signed.fits w (to_ - 1) = true
      · simp [Signed.C_ALIGN_TO, Signed.sadd, Signed.ssub, a1, a2, a3] at h
        exact ⟨a3, by rw [← h, sand_snot_eq]⟩
      · simp [Signed.C_ALIGN_TO, Signed.sadd, Signed.ssub, a1, a2, a3] at h
    · simp [Signed.C_ALIGN_TO, Signed.sadd, Signed.ssub, a1, a2] at h
  · simp [Signed.C_ALIGN_TO, Signed.sadd, a1] at h

/-- Signed `C_ALIGN_TO` is defined when none of its three sums overflows. -/
theorem Signed_C_ALIGN_TO_of_fits (w : Nat) (val to_ : Int)
    (a1 : Signed.fits w (val + to_) = true) (a2 : Signed.fits w (val + to_ - 1) = true)
    (a3 : Signed.fits w (to_ - 1) = true) :
    Signed.C_ALIGN_TO w val to_ =
      some (Signed.ofBits w (C_ALIGN_TO w (Signed.toBits w val) (Signed.toBits w to_))) := by
  simp [Signed.C_ALIGN_TO, Signed.sadd, Signed.ssub, a1, a2, a3, sand_snot_eq]

theorem C_ALIGN_TO_lt (w val to_ : Nat) : C_ALIGN_TO w val to_ < 2 ^ w := by
  have := two_pow_pos_aux w
  unfold C_ALIGN_TO uand
  apply Nat.and_lt_two_pow
  unfold unot
  omega

/-- C3 (amended): `c_align_to` is idempotent for every `val` and every `to` of the
same unsigned `w`-bit type, power of two or not:
`c_align_to(c_align_to(val, to), to) == c_align_to(val, to)`; for `val` and `to`
of the same signed `w`-bit type, whenever `c_align_to(val, to)` is defined with
result `r` and neither `r + to` nor `r + to - 1` overflows,
`c_align_to(r, to) == r`. -/
theorem c_align_to_idempotent (w val to_ : Nat) (cv ct cv2 ct2 : Bool) :
    c_align_to w cv2 ct2 (c_align_to w cv ct val to_) to_ = c_align_to w cv ct val to_ ∧
      ∀ (sval sto r : Int), Signed.c_align_to w cv ct sval sto = some r →
        Signed.fits w (r + sto) = true → Signed.fits w (r + sto - 1) = true →
        Signed.c_align_to w cv2 ct2 r sto = some r := by
  constructor
  · unfold c_align_to
    rw [C_CC_MACRO2_eq, C_CC_MACRO2_eq]
    exact C_ALIGN_TO_idem w val to_
  · intro sval sto r hr h1 h2
    unfold Signed.c_align_to at hr ⊢
    rw [C_CC_MACRO2_eq] at hr ⊢
    obtain ⟨h3, hval⟩ := Signed_C_ALIGN_TO_some w sval sto r hr
    rw [Signed_C_ALIGN_TO_of_fits w r sto h1 h2 h3]
    have hbits : Signed.toBits w r =
        C_ALIGN_TO w (Signed.toBits w sval) (Signed.toBits w sto) := by
      rw [hval]
      exact toBits_ofBits w _ (C_ALIGN_TO_lt w _ _)
    rw [hbits, C_ALIGN_TO_idem, ← hval]

theorem c_align_to_idempotent_witness :
    Signed.c_align_to 32 false true 16 8 = some 16 :=
  (c_align_to_idempotent 32 13 8 true true false true).2 13 8 16 (by decide) (by decide)
    (by decide)

/-- C3 (counterexample): for the signed 32-bit operands `val = 0x7ffffff7` and
`to = 8`, `c_align_to(val, to)` is `0x7ffffff8`, and `c_align_to(0x7ffffff8, 8)`
is undefined, its sum `0x7ffffff8 + 8` overflowing the type: the second
application does not return the value of the first. -/
theorem c_align_to_idempotent_counterexample :
    Signed.c_align_to 32 true true 0x7ffffff7 8 = some 0x7ffffff8 ∧
      Signed.sadd 32 0x7ffffff8 8 = none ∧
      Signed.c_align_to 32 true true 0x7ffffff8 8 = none ∧
      ¬ (Signed.c_align_to 32 true true 0x7ffffff8 8 = some 0x7ffffff8) := by
  decide

end CMacro
